import Mathlib

/-!
Shallow embedding of the Medical IMS backend (server.js: Express + PostgreSQL)
and its client-side status rendering (public/app.js).

The relational store is modelled as lists of rows; each HTTP handler becomes a
function from the database state to `Except ApiError` of the new state, the
`BEGIN`/`COMMIT`/`ROLLBACK` bracket being modelled by construction: an
operation that returns `.error` produces no new state, i.e. the caller keeps
the old one (full rollback, as in the source).

SQL `DATE` values are kept as their ISO `YYYY-MM-DD` strings; on such strings
the store's date order coincides with lexicographic character order, which is
what `charsLe` below computes (Lean's built-in `String` order does not reduce
in the kernel).  `CURRENT_DATE + ($1 || ' days')::interval` is abstracted as a
`cutoff` date parameter: the queries only ever compare stored dates against
that one computed value.
-/

namespace MedIMS

/-- Lexicographic order on character lists, by code point. -/
def charsLe : List Char → List Char → Bool
  | [], _ => true
  | _ :: _, [] => false
  | a :: as, b :: bs => if a < b then true else if b < a then false else charsLe as bs

/-- Order on strings, used for `DATE` comparison and `ORDER BY name`. -/
def strLe (a b : String) : Bool := charsLe a.toList b.toList

/-- Smaller of two strings under `strLe`; models SQL `MIN` aggregation step. -/
def strMin (a b : String) : String := if strLe a b then a else b

/-- SQL COALESCE on two nullable strings: the first non-null argument. -/
def coalesce (new old : Option String) : Option String :=
  match new with
  | some x => some x
  | none => old

/-- Insert into a list sorted by `le` (helper for the `ORDER BY` model). -/
def insertLe (le : α → α → Bool) (a : α) : List α → List α
  | [] => [a]
  | b :: bs => if le a b then a :: b :: bs else b :: insertLe le a bs

/-- Insertion sort by a boolean comparator; models SQL `ORDER BY`. -/
def sortLe (le : α → α → Bool) : List α → List α
  | [] => []
  | a :: as => insertLe le a (sortLe le as)

/-- Row of the `items` table (timestamps omitted: no query result depends on
them beyond ordering, which is modelled by list position). -/
structure Item where
  item_id : Nat
  name : String
  sku : String
  category : Option String
  unit : Option String
  min_level : Int
  is_active : Bool
deriving DecidableEq

/-- Row of the `lots` table. `expiry_date` is the ISO date string. -/
structure Lot where
  lot_id : Nat
  item_id : Nat
  lot_no : String
  expiry_date : String
  quantity : Int
  location : Option String
deriving DecidableEq

/-- The `type` column of `transactions`: CHECK (type IN (...)). -/
inductive TxType where
  | RECEIVE | DISPATCH | ADJUST
deriving DecidableEq

/-- Row of the `transactions` table.  `ts` order is the append order of the
list, `txn_id` is therefore not modelled separately. -/
structure Txn where
  item_id : Option Nat
  lot_id : Option Nat
  qty_change : Int
  type : TxType
  note : Option String
deriving DecidableEq

/-- The database: the three tables plus the `SERIAL` counters. -/
structure DB where
  items : List Item
  lots : List Lot
  txns : List Txn
  nextItemId : Nat
  nextLotId : Nat
deriving DecidableEq

/-- The empty, freshly initialised database. -/
def DB.init : DB := ⟨[], [], [], 1, 1⟩

/-- Error taxonomy of the handlers: HTTP 400 validation, 404, 400
insufficient stock, and 500 store failures. -/
inductive ApiError where
  | validation | notFound | insufficientStock | storage
deriving DecidableEq

/-- Modelled from the spec: "expiryDate a valid calendar date".  The store
(PostgreSQL, an external dependency here) rejects strings that do not parse
as dates; the model fixes the ISO `YYYY-MM-DD` format with the Gregorian
month-length and leap-year rules. -/
def isValidDate (s : String) : Bool :=
  match s.toList with
  | [y1, y2, y3, y4, sep1, m1, m2, sep2, d1, d2] =>
    (sep1 = '-' : Bool) && (sep2 = '-' : Bool) &&
    y1.isDigit && y2.isDigit && y3.isDigit && y4.isDigit &&
    m1.isDigit && m2.isDigit && d1.isDigit && d2.isDigit &&
    (let y : Nat := (y1.toNat - 48) * 1000 + (y2.toNat - 48) * 100 +
        (y3.toNat - 48) * 10 + (y4.toNat - 48)
     let m : Nat := (m1.toNat - 48) * 10 + (m2.toNat - 48)
     let d : Nat := (d1.toNat - 48) * 10 + (d2.toNat - 48)
     let leap : Bool := (y % 4 = 0 && y % 100 ≠ 0) || (y % 400 = 0)
     let dim : Nat :=
       if m = 2 then (if leap then 29 else 28)
       else if m = 4 || m = 6 || m = 9 || m = 11 then 30
       else 31
     (1 ≤ m : Bool) && (m ≤ 12 : Bool) && (1 ≤ d : Bool) && (d ≤ dim : Bool))
  | _ => false

/-- `SELECT * FROM items WHERE sku=$1` (sku is UNIQUE). -/
def findItemBySku (db : DB) (sku : String) : Option Item :=
  db.items.find? (fun i => i.sku == sku)

/-- `Q_INSERT_ITEM`: INSERT ... ON CONFLICT (sku) DO UPDATE SET name,
category, unit, min_level (RETURNING the row). -/
def insertItemUpsert (db : DB) (name sku : String) (category unit : Option String)
    (min_level : Int) : DB × Item :=
  match db.items.find? (fun i => i.sku == sku) with
  | some i =>
    let i' : Item := { i with
      name := name, category := category, unit := unit, min_level := min_level }
    ({ db with items := db.items.map (fun j => if j.sku == sku then i' else j) }, i')
  | none =>
    let i : Item := ⟨db.nextItemId, name, sku, category, unit, min_level, true⟩
    ({ db with items := db.items ++ [i], nextItemId := db.nextItemId + 1 }, i)

/-- `Q_UPSERT_LOT`: INSERT ... ON CONFLICT (item_id, lot_no) DO UPDATE SET
expiry_date=EXCLUDED.expiry_date, quantity=lots.quantity+EXCLUDED.quantity,
location=COALESCE(EXCLUDED.location, lots.location).  The store rejects an
invalid `DATE` literal and enforces CHECK (quantity >= 0). -/
def upsertLot (db : DB) (itemId : Nat) (lot_no expiry : String) (qty : Int)
    (location : Option String) : Except ApiError (DB × Lot) :=
  if ¬ isValidDate expiry then .error .storage else
  match db.lots.find? (fun l => l.item_id == itemId && l.lot_no == lot_no) with
  | some l =>
    let l' : Lot := { l with
      expiry_date := expiry
      quantity := l.quantity + qty
      location := match location with
                  | some x => some x
                  | none => l.location }
    if l'.quantity < 0 then .error .storage
    else .ok ({ db with
      lots := db.lots.map (fun j => if j.lot_id == l.lot_id then l' else j) }, l')
  | none =>
    if qty < 0 then .error .storage
    else
      let l : Lot := ⟨db.nextLotId, itemId, lot_no, expiry, qty, location⟩
      .ok ({ db with lots := db.lots ++ [l], nextLotId := db.nextLotId + 1 }, l)

/-- `Q_INSERT_TX`: append one transaction row. -/
def insertTx (db : DB) (itemId lotId : Option Nat) (q : Int) (ty : TxType)
    (note : Option String) : DB :=
  { db with txns := db.txns ++ [⟨itemId, lotId, q, ty, note⟩] }

/-- `Q_DECR_LOT_QTY`: UPDATE lots SET quantity = quantity - $2 WHERE
lot_id=$1 AND quantity >= $2; `none` models rowCount = 0. -/
def decrLotQty (db : DB) (lotId : Nat) (amt : Int) : Option DB :=
  match db.lots.find? (fun l => l.lot_id == lotId && decide (amt ≤ l.quantity)) with
  | some _ => some { db with
      lots := db.lots.map
        (fun l => if l.lot_id == lotId && decide (amt ≤ l.quantity)
                  then { l with quantity := l.quantity - amt } else l) }
  | none => none

/-- `Q_LOCK_LOTS_FEFO`: SELECT lot_id, quantity FROM lots WHERE item_id=$1
AND quantity>0 ORDER BY expiry_date ASC FOR UPDATE SKIP LOCKED.  In the
sequential model no row is locked elsewhere, so all matching rows are
visible. -/
def lockLotsFEFO (db : DB) (itemId : Nat) : List Lot :=
  sortLe (fun a b => strLe a.expiry_date b.expiry_date)
    (db.lots.filter (fun l => l.item_id == itemId && decide (0 < l.quantity)))

/-- `DELETE FROM lots WHERE quantity<=0` (the post-dispatch sweep). -/
def sweepZeroLots (db : DB) : DB :=
  { db with lots := db.lots.filter (fun l => decide (0 < l.quantity)) }

/-- Body of `POST /api/items`.  A JSON `quantity`-style numeric field is not
needed here; `min_level` defaults to 0 in the handler. -/
structure RegisterReq where
  name : String
  sku : String
  category : Option String
  unit : Option String
  min_level : Int
deriving DecidableEq

/-- `POST /api/items`: `if (!name || !sku) return 400` then `Q_INSERT_ITEM`. -/
def registerItem (db : DB) (r : RegisterReq) : Except ApiError (DB × Item) :=
  if r.name == "" || r.sku == "" then .error .validation
  else .ok (insertItemUpsert db r.name r.sku r.category r.unit r.min_level)

/-- Body of `POST /api/receive`.  `quantity = none` models a request whose
`quantity` is absent or not an integer (`Number.isInteger` false). -/
structure ReceiveReq where
  sku : String
  lot_no : String
  expiry_date : String
  quantity : Option Int
  location : Option String
deriving DecidableEq

/-- The receive handler's validation test (line 209 of the source):
`!sku || !lot_no || !expiry_date || !Number.isInteger(quantity) ||
quantity<=0`, negated. -/
def receiveValid (r : ReceiveReq) : Bool :=
  !(r.sku == "") && !(r.lot_no == "") && !(r.expiry_date == "") &&
  (match r.quantity with
   | some q => decide (0 < q)
   | none => false)

/-- `POST /api/receive`: validate, find-or-create the item, upsert the lot,
append a RECEIVE transaction; all inside one BEGIN/COMMIT. -/
def receive (db : DB) (r : ReceiveReq) : Except ApiError DB :=
  if ¬ receiveValid r then .error .validation else
  match r.quantity with
  | none => .error .validation
  | some q =>
    let found := findItemBySku db r.sku
    let step : DB × Item :=
      match found with
      | some i => (db, i)
      | none => insertItemUpsert db r.sku r.sku none none 0
    match upsertLot step.1 step.2.item_id r.lot_no r.expiry_date q r.location with
    | .error e => .error e
    | .ok (db2, lot) =>
      .ok (insertTx db2 (some step.2.item_id) (some lot.lot_id) q .RECEIVE
            (some ("Stock received")))

/-- Body of `POST /api/dispatch`; `quantity = none` as in `ReceiveReq`. -/
structure DispatchReq where
  sku : String
  quantity : Option Int
  reason : Option String
deriving DecidableEq

/-- The dispatch handler's validation test (line 232 of the source). -/
def dispatchValid (r : DispatchReq) : Bool :=
  !(r.sku == "") &&
  (match r.quantity with
   | some q => decide (0 < q)
   | none => false)

/-- `reason || 'Dispatched'` of the source (JS `||` treats the empty string
as falsy). -/
def dispatchNote (reason : Option String) : String :=
  match reason with
  | some s => if s == "" then "Dispatched" else s
  | none => "Dispatched"

/-- The `for (const lot of lots.rows)` loop of `POST /api/dispatch`: walk
the locked lots, take `min(remaining, lot.quantity)`, conditionally
decrement, and append a DISPATCH transaction when the decrement hit a row. -/
def dispatchLoop (itemId : Nat) (reason : Option String) :
    DB → List Lot → Int → DB × Int
  | db, [], remaining => (db, remaining)
  | db, lot :: rest, remaining =>
    if remaining ≤ 0 then (db, remaining)
    else
      let take := min remaining lot.quantity
      match decrLotQty db lot.lot_id take with
      | some db' =>
        dispatchLoop itemId reason
          (insertTx db' (some itemId) (some lot.lot_id) (-take) .DISPATCH
            (some (dispatchNote reason)))
          rest (remaining - take)
      | none => dispatchLoop itemId reason db rest remaining

/-- `POST /api/dispatch`: validate, resolve the item, FEFO walk, abort on
insufficient stock, sweep zero lots, commit. -/
def dispatch (db : DB) (r : DispatchReq) : Except ApiError DB :=
  if ¬ dispatchValid r then .error .validation else
  match r.quantity with
  | none => .error .validation
  | some q =>
    match findItemBySku db r.sku with
    | none => .error .notFound
    | some item =>
      let lots := lockLotsFEFO db item.item_id
      let out := dispatchLoop item.item_id r.reason db lots q
      if 0 < out.2 then .error .insufficientStock
      else .ok (sweepZeroLots out.1)

/-- The state the caller observes after an operation: the new state on
success, the old one on any error (the handler issued ROLLBACK). -/
def runState (db : DB) (r : Except ApiError DB) : DB :=
  match r with
  | .ok db' => db'
  | .error _ => db

/-- `v_item_stock.current_stock`: COALESCE(SUM(l.quantity), 0) over the
item's lots. -/
def currentStock (db : DB) (itemId : Nat) : Int :=
  ((db.lots.filter (fun l => l.item_id == itemId)).map (fun l => l.quantity)).sum

/-- `MIN(l.expiry_date)` over the item's lots; `none` models SQL NULL
(the item has no lots under the LEFT JOIN). -/
def earliestExpiry (db : DB) (itemId : Nat) : Option String :=
  match (db.lots.filter (fun l => l.item_id == itemId)).map (fun l => l.expiry_date) with
  | [] => none
  | e :: es => some (es.foldl strMin e)

/-- A row of `v_item_stock` as returned by `GET /api/items`. -/
structure StockRow where
  item_id : Nat
  name : String
  sku : String
  category : Option String
  unit : Option String
  min_level : Int
  is_active : Bool
  current_stock : Int
deriving DecidableEq

/-- JS truthiness of the ILIKE pattern test: case-insensitive substring.
`containsCI h n` holds when `n` (lower-cased) occurs inside `h`. -/
def listHasPrefixChars : List Char → List Char → Bool
  | _, [] => true
  | [], _ :: _ => false
  | a :: as, b :: bs => (a == b) && listHasPrefixChars as bs

/-- Substring occurrence on character lists. -/
def listHasSub : List Char → List Char → Bool
  | h, n => listHasPrefixChars h n ||
    (match h with
     | [] => false
     | _ :: t => listHasSub t n)

/-- `name ILIKE '%'||$1||'%'`: case-insensitive containment. -/
def ilikeContains (hay pat : String) : Bool :=
  listHasSub (hay.toLower.toList) (pat.toLower.toList)

/-- `Q_SELECT_ITEMS`: all `v_item_stock` rows matching the optional search
text, ORDER BY name. -/
def listItems (db : DB) (search : Option String) : List StockRow :=
  sortLe (fun a b => strLe a.name b.name)
    ((db.items.filter (fun i =>
        match search with
        | none => true
        | some s => ilikeContains i.name s || ilikeContains i.sku s)).map
      (fun i =>
        { item_id := i.item_id, name := i.name, sku := i.sku,
          category := i.category, unit := i.unit, min_level := i.min_level,
          is_active := i.is_active,
          current_stock := currentStock db i.item_id }))

/-- A row of `GET /api/alerts`. -/
structure AlertRow where
  sku : String
  name : String
  min_level : Int
  stock : Int
  earliest_expiry : Option String
deriving DecidableEq

/-- The HAVING clause of `Q_ALERTS`, with `cutoff` standing for
`CURRENT_DATE + ($1 || ' days')::interval`. -/
def alertCond (cutoff : String) (a : AlertRow) : Bool :=
  decide (a.stock < a.min_level) ||
  (match a.earliest_expiry with
   | none => true
   | some e => strLe e cutoff)

/-- The per-item aggregation of `Q_ALERTS` (GROUP BY i.item_id). -/
def alertRowOf (db : DB) (i : Item) : AlertRow :=
  { sku := i.sku, name := i.name, min_level := i.min_level,
    stock := currentStock db i.item_id,
    earliest_expiry := earliestExpiry db i.item_id }

/-- `GET /api/alerts`: aggregate, filter by the HAVING clause, ORDER BY
name. -/
def alerts (db : DB) (cutoff : String) : List AlertRow :=
  sortLe (fun a b => strLe a.name b.name)
    ((db.items.map (alertRowOf db)).filter (alertCond cutoff))

/-- public/app.js line 32: `(a.stock <= 0) ? 'OUT' : (a.stock < a.min_level
? 'LOW' : 'OK')`. -/
def alertStatus (stock min_level : Int) : String :=
  if stock ≤ 0 then "OUT" else if stock < min_level then "LOW" else "OK"

/-- Result row of `Q_STATS`. -/
structure StatsRow where
  total_items : Nat
  units_in_stock : Int
  low_stock : Nat
  expiring_soon : Nat
deriving DecidableEq

/-- `Q_STATS`, with `cutoff` for `CURRENT_DATE + ($1 || ' days')::interval`. -/
def stats (db : DB) (cutoff : String) : StatsRow :=
  { total_items := db.items.length,
    units_in_stock := (db.lots.map (fun l => l.quantity)).sum,
    low_stock := (db.items.filter
      (fun i => decide (currentStock db i.item_id < i.min_level))).length,
    expiring_soon := ((db.lots.filter
      (fun l => strLe l.expiry_date cutoff)).map (fun l => l.item_id)).dedup.length }

/-- A row of `GET /api/transactions` (`Q_RECENT_TX`): the transaction
enriched through the two LEFT JOINs. -/
structure TxRow where
  type : TxType
  qty_change : Int
  sku : Option String
  lot_no : Option String
  expiry : Option String
  location : Option String
deriving DecidableEq

/-- `Q_RECENT_TX`: most recent first (ts order = append order), LIMIT, with
null-safe joins to items and lots. -/
def recentTx (db : DB) (limit : Nat) : List TxRow :=
  (db.txns.reverse.take limit).map (fun t =>
    let item := t.item_id.bind (fun iid => db.items.find? (fun i => i.item_id == iid))
    let lot := t.lot_id.bind (fun lid => db.lots.find? (fun l => l.lot_id == lid))
    { type := t.type, qty_change := t.qty_change,
      sku := item.map (fun i => i.sku),
      lot_no := lot.map (fun l => l.lot_no),
      expiry := lot.map (fun l => l.expiry_date),
      location := lot.bind (fun l => l.location) })

/-! ### Derived definitions used by the verification -/

/-- The takes of the FEFO walk: for each visited lot, `min(remaining,
lot.quantity)`, visiting the visible lots in order and stopping once the
remaining request is exhausted.  This is the specification-level view of
`dispatchLoop` when every conditional decrement hits its row. -/
def fefoTakes : Int → List Lot → List (Lot × Int)
  | _, [] => []
  | r, lot :: rest =>
    if r ≤ 0 then []
    else (lot, min r lot.quantity) :: fefoTakes (r - min r lot.quantity) rest

/-- The remaining request after the FEFO walk over the given visible lots. -/
def fefoRemaining : Int → List Lot → Int
  | r, [] => r
  | r, lot :: rest =>
    if r ≤ 0 then r else fefoRemaining (r - min r lot.quantity) rest

/-- Apply a list of takes to one lot row: decrement it when a take targets
its lot id, otherwise leave it alone. -/
def decrByTakes (tk : List (Lot × Int)) (l : Lot) : Lot :=
  match tk.find? (fun p => p.1.lot_id == l.lot_id) with
  | some p => { l with quantity := l.quantity - p.2 }
  | none => l

/-- The DISPATCH transaction row appended for one take. -/
def mkDispatchTx (itemId : Nat) (reason : Option String) (p : Lot × Int) : Txn :=
  ⟨some itemId, some p.1.lot_id, -p.2, .DISPATCH, some (dispatchNote reason)⟩

/-- Flip every item's `is_active` flag to false (used to state that no read
query filters on the flag). -/
def setInactive (db : DB) : DB :=
  { db with items := db.items.map (fun i => { i with is_active := false }) }

/-- Everything a `v_item_stock` row carries except the `is_active` flag. -/
def stripActive (r : StockRow) :
    Nat × String × String × Option String × Option String × Int × Int :=
  (r.item_id, r.name, r.sku, r.category, r.unit, r.min_level, r.current_stock)

/-- States reachable from the fresh schema by successful API operations
(failed operations leave the state unchanged by construction). -/
inductive Reachable : DB → Prop where
  | init : Reachable DB.init
  | register (db : DB) (r : RegisterReq) (db' : DB) (it : Item) :
      Reachable db → registerItem db r = .ok (db', it) → Reachable db'
  | recv (db : DB) (r : ReceiveReq) (db' : DB) :
      Reachable db → receive db r = .ok db' → Reachable db'
  | disp (db : DB) (r : DispatchReq) (db' : DB) :
      Reachable db → dispatch db r = .ok db' → Reachable db'

/-- The state invariant maintained by the three mutating operations. -/
structure Inv (db : DB) : Prop where
  lot_qty_pos : ∀ l ∈ db.lots, 0 < l.quantity
  lot_ids_nodup : (db.lots.map (fun l => l.lot_id)).Nodup
  lot_id_lt : ∀ l ∈ db.lots, l.lot_id < db.nextLotId
  items_active : ∀ i ∈ db.items, i.is_active = true

/-- First receipt of the running example: lot L1 of item A, expiry
2025-01-01, quantity 5. -/
def reqA1 : ReceiveReq := ⟨"A", "L1", "2025-01-01", some 5, none⟩

/-- Second receipt of the running example: lot L2 of item A, expiry
2025-06-01, quantity 5. -/
def reqA2 : ReceiveReq := ⟨"A", "L2", "2025-06-01", some 5, none⟩

/-- State with item A and lot L1 only. -/
def dbOne : DB := runState DB.init (receive DB.init reqA1)

/-- State with item A holding L1(2025-01-01, 5) and L2(2025-06-01, 5):
the initial state of the spec's FEFO example. -/
def dbTwo : DB := runState dbOne (receive dbOne reqA2)

/-- Item A as auto-created by the first receive. -/
def itemA : Item := ⟨1, "A", "A", none, none, 0, true⟩

/-- The state the FEFO example predicts after Dispatch(A, 7) from `dbTwo`:
L1 drained and removed, L2 left at 3, two DISPATCH transactions appended. -/
def dbTwoAfter : DB :=
  { items := dbTwo.items,
    lots := [⟨2, 1, "L2", "2025-06-01", 3, none⟩],
    txns := dbTwo.txns ++
      [⟨some 1, some 1, -5, .DISPATCH, some ("Dispatched")⟩,
       ⟨some 1, some 2, -2, .DISPATCH, some ("Dispatched")⟩],
    nextItemId := 2, nextLotId := 3 }

/-- Second receipt of only 3 units, for the insufficient-stock example
(total 8 on hand, 10 requested). -/
def reqA3 : ReceiveReq := ⟨"A", "L2", "2025-06-01", some 3, none⟩

/-- State with item A holding L1(5) and L2(3): total stock 8. -/
def dbEight : DB := runState dbOne (receive dbOne reqA3)

/-- A receive request whose expiry string is non-empty but not a calendar
date (February has no 30th day). -/
def reqBadDate : ReceiveReq := ⟨"A", "L1", "2025-02-30", some 5, none⟩

/-- Receive of lot L1 carrying storage location S1. -/
def reqLoc1 : ReceiveReq := ⟨"A", "L1", "2025-01-01", some 10, some ("S1")⟩

/-- State after `reqLoc1`. -/
def dbLoc1 : DB := runState DB.init (receive DB.init reqLoc1)

/-- Second receive of the same lot carrying a different location S2. -/
def reqLoc2 : ReceiveReq := ⟨"A", "L1", "2025-03-01", some 5, some ("S2")⟩

/-- State after `reqLoc1` then `reqLoc2`. -/
def dbLoc2 : DB := runState dbLoc1 (receive dbLoc1 reqLoc2)

/-- `dbTwo` plus a second item B with one lot of 4 units. -/
def dbTwoB : DB := runState dbTwo (receive dbTwo ⟨"B", "L9", "2026-01-01", some 4, none⟩)

/-- Predicted state after Dispatch(A, 7) from `dbTwoB`: item B's lot
untouched. -/
def dbTwoBAfter : DB :=
  { items := dbTwoB.items,
    lots := [⟨2, 1, "L2", "2025-06-01", 3, none⟩,
             ⟨3, 2, "L9", "2026-01-01", 4, none⟩],
    txns := dbTwoB.txns ++
      [⟨some 1, some 1, -5, .DISPATCH, some ("Dispatched")⟩,
       ⟨some 1, some 2, -2, .DISPATCH, some ("Dispatched")⟩],
    nextItemId := 3, nextLotId := 4 }

/-! ### Order and sorting lemmas -/

theorem charsLe_total : ∀ (a b : List Char), charsLe a b = true ∨ charsLe b a = true
  | [], _ => by left; simp [charsLe]
  | _ :: _, [] => by right; simp [charsLe]
  | a :: as, b :: bs => by
    by_cases h1 : a < b
    · left; simp [charsLe, h1]
    · by_cases h2 : b < a
      · right; simp [charsLe, h2]
      · rcases charsLe_total as bs with h | h
        · left; simp [charsLe, h1, h2, h]
        · right; simp [charsLe, h1, h2, h]

theorem charsLe_trans : ∀ (a b c : List Char),
    charsLe a b = true → charsLe b c = true → charsLe a c = true
  | [], _, _, _, _ => by simp [charsLe]
  | _ :: _, [], _, h1, _ => by simp [charsLe] at h1
  | _ :: _, _ :: _, [], _, h2 => by simp [charsLe] at h2
  | a :: as, b :: bs, c :: cs, h1, h2 => by
    by_cases hab : a < b
    · by_cases hbc : b < c
      · simp [charsLe, lt_trans hab hbc]
      · by_cases hcb : c < b
        · simp [charsLe, hbc, hcb] at h2
        · have hbc' : b = c := le_antisymm (not_lt.mp hcb) (not_lt.mp hbc)
          subst hbc'
          simp [charsLe, hab]
    · by_cases hba : b < a
      · simp [charsLe, hab, hba] at h1
      · have hab' : a = b := le_antisymm (not_lt.mp hba) (not_lt.mp hab)
        subst hab'
        by_cases hac : a < c
        · simp [charsLe, hac]
        · by_cases hca : c < a
          · simp [charsLe, hac, hca] at h2
          · have h1' : charsLe as bs = true := by simpa [charsLe, lt_irrefl] using h1
            have h2' : charsLe bs cs = true := by simpa [charsLe, hac, hca] using h2
            simp [charsLe, hac, hca, charsLe_trans as bs cs h1' h2']

theorem strLe_total (a b : String) : strLe a b = true ∨ strLe b a = true :=
  charsLe_total a.toList b.toList

theorem strLe_trans {a b c : String} (h1 : strLe a b = true) (h2 : strLe b c = true) :
    strLe a c = true :=
  charsLe_trans a.toList b.toList c.toList h1 h2

theorem insertLe_perm (le : α → α → Bool) (a : α) :
    ∀ l : List α, (insertLe le a l).Perm (a :: l)
  | [] => List.Perm.refl _
  | b :: bs => by
    simp only [insertLe]
    by_cases h : le a b = true
    · simp [h]
    · simp only [if_neg h]
      exact (List.Perm.cons b (insertLe_perm le a bs)).trans (List.Perm.swap a b bs)

theorem sortLe_perm (le : α → α → Bool) : ∀ l : List α, (sortLe le l).Perm l
  | [] => List.Perm.refl _
  | a :: as =>
    (insertLe_perm le a (sortLe le as)).trans (List.Perm.cons a (sortLe_perm le as))

theorem mem_insertLe {le : α → α → Bool} {a x : α} {l : List α} :
    x ∈ insertLe le a l ↔ x = a ∨ x ∈ l := by
  rw [(insertLe_perm le a l).mem_iff, List.mem_cons]

theorem pairwise_insertLe {le : α → α → Bool}
    (htot : ∀ x y, le x y = true ∨ le y x = true)
    (htr : ∀ x y z, le x y = true → le y z = true → le x z = true) (a : α) :
    ∀ l : List α, l.Pairwise (fun x y => le x y = true) →
      (insertLe le a l).Pairwise (fun x y => le x y = true)
  | [], _ => by simp [insertLe]
  | b :: bs, hp => by
    rw [List.pairwise_cons] at hp
    obtain ⟨hb, hbs⟩ := hp
    simp only [insertLe]
    by_cases h : le a b = true
    · simp only [if_pos h]
      refine List.Pairwise.cons ?_ (List.Pairwise.cons hb hbs)
      intro x hx
      rcases List.mem_cons.mp hx with rfl | hx
      · exact h
      · exact htr a b x h (hb x hx)
    · simp only [if_neg h]
      refine List.Pairwise.cons ?_ (pairwise_insertLe htot htr a bs hbs)
      intro x hx
      rcases mem_insertLe.mp hx with rfl | hx
      · rcases htot x b with h' | h'
        · exact absurd h' h
        · exact h'
      · exact hb x hx

theorem sortLe_pairwise {le : α → α → Bool}
    (htot : ∀ x y, le x y = true ∨ le y x = true)
    (htr : ∀ x y z, le x y = true → le y z = true → le x z = true) :
    ∀ l : List α, (sortLe le l).Pairwise (fun x y => le x y = true)
  | [] => List.Pairwise.nil
  | a :: as => pairwise_insertLe htot htr a (sortLe le as) (sortLe_pairwise htot htr as)

theorem insertLe_map (f : α → β) {le : α → α → Bool} {le' : β → β → Bool}
    (hf : ∀ x y, le' (f x) (f y) = le x y) (a : α) :
    ∀ l : List α, insertLe le' (f a) (l.map f) = (insertLe le a l).map f
  | [] => rfl
  | b :: bs => by
    simp only [List.map, insertLe, hf]
    by_cases h : le a b = true
    · simp [h]
    · simp [h, insertLe_map f hf a bs]

theorem sortLe_map (f : α → β) {le : α → α → Bool} {le' : β → β → Bool}
    (hf : ∀ x y, le' (f x) (f y) = le x y) :
    ∀ l : List α, sortLe le' (l.map f) = (sortLe le l).map f
  | [] => rfl
  | a :: as => by
    simp only [List.map, sortLe, sortLe_map f hf as]
    exact insertLe_map f hf a (sortLe le as)

/-! ### Properties of the FEFO walk -/

theorem fefoRemaining_nonneg : ∀ (V : List Lot) (r : Int), 0 ≤ r → 0 ≤ fefoRemaining r V
  | [], _, h => h
  | lot :: rest, r, h => by
    simp only [fefoRemaining]
    by_cases h0 : r ≤ 0
    · simpa [h0] using h
    · rw [if_neg h0]
      refine fefoRemaining_nonneg rest _ ?_
      have : min r lot.quantity ≤ r := min_le_left _ _
      omega

theorem sum_fefoTakes : ∀ (V : List Lot) (r : Int),
    ((fefoTakes r V).map (fun p => p.2)).sum = r - fefoRemaining r V
  | [], r => by simp [fefoTakes, fefoRemaining]
  | lot :: rest, r => by
    simp only [fefoTakes, fefoRemaining]
    by_cases h0 : r ≤ 0
    · simp [h0]
    · rw [if_neg h0, if_neg h0]
      simp only [List.map_cons, List.sum_cons]
      have := sum_fefoTakes rest (r - min r lot.quantity)
      omega

theorem fefoRemaining_ge : ∀ (V : List Lot) (r : Int), (∀ l ∈ V, 0 ≤ l.quantity) →
    r - (V.map (fun l => l.quantity)).sum ≤ fefoRemaining r V
  | [], r, _ => by simp [fefoRemaining]
  | lot :: rest, r, h => by
    simp only [fefoRemaining, List.map_cons, List.sum_cons]
    have hq : 0 ≤ lot.quantity := h lot (List.mem_cons_self _ _)
    have hrest : ∀ l ∈ rest, 0 ≤ l.quantity := fun l hl => h l (List.mem_cons_of_mem _ hl)
    have hsum : 0 ≤ (rest.map (fun l => l.quantity)).sum := by
      refine List.sum_nonneg ?_
      intro x hx
      rcases List.mem_map.mp hx with ⟨l, hl, rfl⟩
      exact hrest l hl
    by_cases h0 : r ≤ 0
    · rw [if_pos h0]
      omega
    · rw [if_neg h0]
      have := fefoRemaining_ge rest (r - min r lot.quantity) hrest
      have hmin : min r lot.quantity ≤ lot.quantity := min_le_right _ _
      omega

theorem fefoTakes_mem_le : ∀ (V : List Lot) (r : Int) (p : Lot × Int),
    p ∈ fefoTakes r V → p.1 ∈ V ∧ p.2 ≤ p.1.quantity
  | [], _, _, hp => by simp [fefoTakes] at hp
  | lot :: rest, r, p, hp => by
    simp only [fefoTakes] at hp
    by_cases h0 : r ≤ 0
    · simp [h0] at hp
    · rw [if_neg h0] at hp
      rcases List.mem_cons.mp hp with rfl | hp
      · exact ⟨List.mem_cons_self _ _, min_le_right _ _⟩
      · obtain ⟨h1, h2⟩ := fefoTakes_mem_le rest _ p hp
        exact ⟨List.mem_cons_of_mem _ h1, h2⟩

theorem fefoTakes_fst_sublist : ∀ (V : List Lot) (r : Int),
    ((fefoTakes r V).map (fun p => p.1)).Sublist V
  | [], r => by simp [fefoTakes]
  | lot :: rest, r => by
    simp only [fefoTakes]
    by_cases h0 : r ≤ 0
    · simp [h0]
    · rw [if_neg h0]
      simp only [List.map_cons]
      exact List.Sublist.cons₂ _ (fefoTakes_fst_sublist rest _)

theorem decrByTakes_nil (l : Lot) : decrByTakes [] l = l := rfl

theorem decrByTakes_lot_id (tk : List (Lot × Int)) (l : Lot) :
    (decrByTakes tk l).lot_id = l.lot_id := by
  unfold decrByTakes
  cases tk.find? (fun p => p.1.lot_id == l.lot_id) <;> rfl

theorem decrByTakes_item_id (tk : List (Lot × Int)) (l : Lot) :
    (decrByTakes tk l).item_id = l.item_id := by
  unfold decrByTakes
  cases tk.find? (fun p => p.1.lot_id == l.lot_id) <;> rfl

theorem decrByTakes_eq_of_not_mem {tk : List (Lot × Int)} {l : Lot}
    (h : l.lot_id ∉ tk.map (fun p => p.1.lot_id)) : decrByTakes tk l = l := by
  unfold decrByTakes
  have hf : tk.find? (fun p => p.1.lot_id == l.lot_id) = none := by
    rw [List.find?_eq_none]
    intro p hp hbeq
    exact h (List.mem_map.mpr ⟨p, hp, by simpa using hbeq⟩)
  rw [hf]

theorem sum_decrBy_cons (p : Lot × Int) (tk : List (Lot × Int))
    (hp : p.1.lot_id ∉ tk.map (fun q => q.1.lot_id)) :
    ∀ (L : List Lot), (L.map (fun l => l.lot_id)).Nodup → p.1 ∈ L →
    (L.map (fun l => (decrByTakes (p :: tk) l).quantity)).sum
      = (L.map (fun l => (decrByTakes tk l).quantity)).sum - p.2
  | [], _, hm => absurd hm (List.not_mem_nil _)
  | h :: t, hnd, hm => by
    simp only [List.map_cons, List.sum_cons] at *
    rw [List.nodup_cons] at hnd
    obtain ⟨hh, ht⟩ := hnd
    by_cases hid : p.1.lot_id = h.lot_id
    · have e1 : decrByTakes (p :: tk) h = { h with quantity := h.quantity - p.2 } := by
        unfold decrByTakes
        simp [List.find?, hid]
      have e2 : decrByTakes tk h = h := by
        refine decrByTakes_eq_of_not_mem ?_
        rw [← hid]
        exact hp
      have e3 : t.map (fun l => (decrByTakes (p :: tk) l).quantity)
          = t.map (fun l => (decrByTakes tk l).quantity) := by
        refine List.map_congr_left ?_
        intro l hl
        have hne : (p.1.lot_id == l.lot_id) = false := by
          rw [hid]
          simp only [beq_eq_false_iff_ne, ne_eq]
          intro he
          exact hh (List.mem_map.mpr ⟨l, hl, he.symm⟩)
        unfold decrByTakes
        simp [List.find?, hne]
      rw [e1, e2, e3]
      simp only []
      omega
    · have hm' : p.1 ∈ t := by
        rcases List.mem_cons.mp hm with he | hm'
        · exact absurd (congrArg Lot.lot_id he) hid
        · exact hm'
      have e1 : decrByTakes (p :: tk) h = decrByTakes tk h := by
        have hne : (p.1.lot_id == h.lot_id) = false := by
          simpa [beq_eq_false_iff_ne] using hid
        unfold decrByTakes
        simp [List.find?, hne]
      rw [e1, sum_decrBy_cons p tk hp t ht hm']
      omega

theorem sum_decrByTakes : ∀ (tk : List (Lot × Int)) (L : List Lot),
    (L.map (fun l => l.lot_id)).Nodup →
    (tk.map (fun p => p.1.lot_id)).Nodup →
    (∀ p ∈ tk, p.1 ∈ L) →
    (L.map (fun l => (decrByTakes tk l).quantity)).sum
      = (L.map (fun l => l.quantity)).sum - (tk.map (fun p => p.2)).sum
  | [], L, _, _, _ => by simp [decrByTakes_nil]
  | p :: tk, L, hL, htk, hmem => by
    simp only [List.map_cons, List.nodup_cons] at htk
    obtain ⟨hp, htk'⟩ := htk
    rw [sum_decrBy_cons p tk hp L hL (hmem p (List.mem_cons_self _ _)),
        sum_decrByTakes tk L hL htk' (fun q hq => hmem q (List.mem_cons_of_mem _ hq))]
    simp only [List.map_cons, List.sum_cons]
    omega

theorem decrByTakes_qty_nonneg {tk : List (Lot × Int)} {L : List Lot} {l : Lot}
    (hL : (L.map (fun l => l.lot_id)).Nodup)
    (hmem : ∀ p ∈ tk, p.1 ∈ L ∧ p.2 ≤ p.1.quantity)
    (hl : l ∈ L) (h0 : 0 ≤ l.quantity) : 0 ≤ (decrByTakes tk l).quantity := by
  unfold decrByTakes
  cases hfind : tk.find? (fun p => p.1.lot_id == l.lot_id) with
  | none => exact h0
  | some p =>
    have hptk := List.mem_of_find?_eq_some hfind
    have hpeq : p.1.lot_id = l.lot_id := by simpa using List.find?_some hfind
    obtain ⟨hpL, hple⟩ := hmem p hptk
    have hpl : p.1 = l := List.inj_on_of_nodup_map hL hpL hl hpeq
    rw [hpl] at hple
    simp only []
    omega

/-! ### The dispatch loop -/

theorem map_decrByTakes_nil (L : List Lot) : L.map (decrByTakes []) = L := by
  induction L with
  | nil => rfl
  | cons h t ih => simp [decrByTakes_nil, ih]

theorem decrLotQty_eq (db : DB) (lotId : Nat) (amt : Int)
    (hs : ∃ l ∈ db.lots, l.lot_id = lotId ∧ amt ≤ l.quantity) :
    decrLotQty db lotId amt = some { db with
      lots := db.lots.map
        (fun l => if l.lot_id == lotId && decide (amt ≤ l.quantity)
                  then { l with quantity := l.quantity - amt } else l) } := by
  obtain ⟨l, hl, hid, hle⟩ := hs
  rcases hf : db.lots.find? (fun l => l.lot_id == lotId && decide (amt ≤ l.quantity)) with _ | w
  · rw [List.find?_eq_none] at hf
    have := hf l hl
    simp [hid, hle] at this
  · unfold decrLotQty
    rw [hf]

/-- One induction settling everything about the FEFO consumption loop when
every visible lot is a live row of the database: the loop performs exactly
the `fefoTakes` decrements, appends exactly one DISPATCH transaction per
take, touches nothing else, and returns `fefoRemaining`. -/
theorem dispatchLoop_spec (itemId : Nat) (reason : Option String) :
    ∀ (V : List Lot) (db : DB) (r : Int),
    (db.lots.map (fun l => l.lot_id)).Nodup →
    (∀ l ∈ V, l ∈ db.lots) →
    (V.map (fun l => l.lot_id)).Nodup →
    (dispatchLoop itemId reason db V r).1.items = db.items ∧
    (dispatchLoop itemId reason db V r).1.lots
      = db.lots.map (decrByTakes (fefoTakes r V)) ∧
    (dispatchLoop itemId reason db V r).1.txns
      = db.txns ++ (fefoTakes r V).map (mkDispatchTx itemId reason) ∧
    (dispatchLoop itemId reason db V r).1.nextItemId = db.nextItemId ∧
    (dispatchLoop itemId reason db V r).1.nextLotId = db.nextLotId ∧
    (dispatchLoop itemId reason db V r).2 = fefoRemaining r V
  | [], db, r, _, _, _ => by
    simp [dispatchLoop, fefoTakes, fefoRemaining, map_decrByTakes_nil]
  | lot :: rest, db, r, hdb, hmemV, hVids => by
    by_cases h0 : r ≤ 0
    · simp [dispatchLoop, fefoTakes, fefoRemaining, h0, map_decrByTakes_nil]
    · have hmemlot : lot ∈ db.lots := hmemV lot (List.mem_cons_self _ _)
      have htake : min r lot.quantity ≤ lot.quantity := min_le_right _ _
      simp only [List.map_cons, List.nodup_cons] at hVids
      obtain ⟨hlotrest, hrestids⟩ := hVids
      have hdq := decrLotQty_eq db lot.lot_id (min r lot.quantity)
        ⟨lot, hmemlot, rfl, htake⟩
      set F : Lot → Lot := fun l =>
        if l.lot_id == lot.lot_id && decide (min r lot.quantity ≤ l.quantity)
        then { l with quantity := l.quantity - min r lot.quantity } else l with hF
      have hFid : ∀ l, (F l).lot_id = l.lot_id := by
        intro l
        rw [hF]
        simp only []
        split <;> rfl
      have hids2 : (db.lots.map F).map (fun l => l.lot_id)
          = db.lots.map (fun l => l.lot_id) := by
        rw [List.map_map]
        exact List.map_congr_left (fun l _ => hFid l)
      have hnotin : lot.lot_id ∉
          (fefoTakes (r - min r lot.quantity) rest).map (fun p => p.1.lot_id) := by
        intro hmem
        refine hlotrest ?_
        have hsub := List.Sublist.map (fun l => l.lot_id)
          (fefoTakes_fst_sublist rest (r - min r lot.quantity))
        rw [List.map_map] at hsub
        exact hsub.subset hmem
      have hft : fefoTakes r (lot :: rest)
          = (lot, min r lot.quantity) :: fefoTakes (r - min r lot.quantity) rest := by
        simp [fefoTakes, h0]
      have hdb2ids : (((insertTx { db with lots := db.lots.map F } (some itemId)
          (some lot.lot_id) (-(min r lot.quantity)) TxType.DISPATCH
          (some (dispatchNote reason))).lots).map (fun l => l.lot_id)).Nodup := by
        show ((db.lots.map F).map (fun l => l.lot_id)).Nodup
        rw [hids2]
        exact hdb
      have hmemV2 : ∀ l ∈ rest, l ∈ (insertTx { db with lots := db.lots.map F }
          (some itemId) (some lot.lot_id) (-(min r lot.quantity)) TxType.DISPATCH
          (some (dispatchNote reason))).lots := by
        intro l hl
        have hne : (l.lot_id == lot.lot_id) = false := by
          simp only [beq_eq_false_iff_ne, ne_eq]
          intro he
          refine hlotrest ?_
          rw [← he]
          exact List.mem_map_of_mem _ hl
        have hFl : F l = l := by
          rw [hF]
          simp [hne]
        show l ∈ db.lots.map F
        rw [← hFl]
        exact List.mem_map_of_mem F (hmemV l (List.mem_cons_of_mem _ hl))
      have IH := dispatchLoop_spec itemId reason rest
        (insertTx { db with lots := db.lots.map F } (some itemId)
          (some lot.lot_id) (-(min r lot.quantity)) TxType.DISPATCH
          (some (dispatchNote reason)))
        (r - min r lot.quantity) hdb2ids hmemV2 hrestids
      obtain ⟨IHitems, IHlots, IHtxns, IHni, IHnl, IHrem⟩ := IH
      have hloop : dispatchLoop itemId reason db (lot :: rest) r
          = dispatchLoop itemId reason
              (insertTx { db with lots := db.lots.map F } (some itemId)
                (some lot.lot_id) (-(min r lot.quantity)) TxType.DISPATCH
                (some (dispatchNote reason)))
              rest (r - min r lot.quantity) := by
        conv_lhs => rw [dispatchLoop]
        rw [if_neg h0]
        simp only [hdq]
      rw [hloop]
      refine ⟨?_, ?_, ?_, ?_, ?_, ?_⟩
      · rw [IHitems]
        rfl
      · rw [IHlots]
        show (db.lots.map F).map (decrByTakes (fefoTakes (r - min r lot.quantity) rest))
          = db.lots.map (decrByTakes (fefoTakes r (lot :: rest)))
        rw [List.map_map, hft]
        refine List.map_congr_left ?_
        intro l hl
        simp only [Function.comp_apply]
        by_cases hid : l.lot_id = lot.lot_id
        · have hleq : l = lot := List.inj_on_of_nodup_map hdb hl hmemlot hid
          subst hleq
          have hFl : F l = { l with quantity := l.quantity - min r l.quantity } := by
            rw [hF]
            simp [htake]
          have hgoalr : decrByTakes ((l, min r l.quantity)
              :: fefoTakes (r - min r l.quantity) rest) l
              = { l with quantity := l.quantity - min r l.quantity } := by
            unfold decrByTakes
            simp [List.find?]
          rw [hgoalr, hFl]
          exact decrByTakes_eq_of_not_mem hnotin
        · have hne : (l.lot_id == lot.lot_id) = false := by
            simpa [beq_eq_false_iff_ne] using hid
          have hne' : (lot.lot_id == l.lot_id) = false := by
            simp only [beq_eq_false_iff_ne, ne_eq]
            exact fun he => hid he.symm
          have hFl : F l = l := by
            rw [hF]
            simp [hne]
          rw [hFl]
          unfold decrByTakes
          simp [List.find?, hne']
      · rw [IHtxns]
        show (db.txns ++ [⟨some itemId, some lot.lot_id, -(min r lot.quantity),
            TxType.DISPATCH, some (dispatchNote reason)⟩])
            ++ (fefoTakes (r - min r lot.quantity) rest).map (mkDispatchTx itemId reason)
          = db.txns ++ (fefoTakes r (lot :: rest)).map (mkDispatchTx itemId reason)
        rw [hft, List.append_assoc]
        rfl
      · rw [IHni]
        rfl
      · rw [IHnl]
        rfl
      · rw [IHrem]
        simp [fefoRemaining, h0]

/-! ### The dispatch handler -/

theorem lockLotsFEFO_perm (db : DB) (itemId : Nat) :
    (lockLotsFEFO db itemId).Perm
      (db.lots.filter (fun l => l.item_id == itemId && decide (0 < l.quantity))) :=
  sortLe_perm _ _

theorem lockLotsFEFO_mem {db : DB} {itemId : Nat} {l : Lot} :
    l ∈ lockLotsFEFO db itemId ↔ l ∈ db.lots ∧ l.item_id = itemId ∧ 0 < l.quantity := by
  rw [(lockLotsFEFO_perm db itemId).mem_iff, List.mem_filter]
  simp [and_assoc]

theorem lockLotsFEFO_ids_nodup {db : DB}
    (hdb : (db.lots.map (fun l => l.lot_id)).Nodup) (itemId : Nat) :
    ((lockLotsFEFO db itemId).map (fun l => l.lot_id)).Nodup := by
  rw [List.Perm.nodup_iff ((lockLotsFEFO_perm db itemId).map (fun l => l.lot_id))]
  exact List.Nodup.sublist (List.Sublist.map _ (List.filter_sublist _)) hdb

theorem lockLotsFEFO_sorted (db : DB) (itemId : Nat) :
    (lockLotsFEFO db itemId).Pairwise
      (fun a b => strLe a.expiry_date b.expiry_date = true) := by
  unfold lockLotsFEFO
  exact @sortLe_pairwise Lot (fun a b => strLe a.expiry_date b.expiry_date)
    (fun x y => strLe_total x.expiry_date y.expiry_date)
    (fun x y z h1 h2 => strLe_trans h1 h2) _

theorem sum_lockLotsFEFO (db : DB) (itemId : Nat)
    (hpos : ∀ l ∈ db.lots, 0 < l.quantity) :
    ((lockLotsFEFO db itemId).map (fun l => l.quantity)).sum = currentStock db itemId := by
  rw [List.Perm.sum_eq ((lockLotsFEFO_perm db itemId).map (fun l => l.quantity))]
  unfold currentStock
  congr 1
  refine congrArg _ (List.filter_congr ?_)
  intro l hl
  have := hpos l hl
  simp [this]

theorem dispatch_found_eq {db : DB} {r : DispatchReq} {q : Int} {item : Item}
    (hv : dispatchValid r = true) (hq : r.quantity = some q)
    (hfind : findItemBySku db r.sku = some item) :
    dispatch db r =
      if 0 < (dispatchLoop item.item_id r.reason db (lockLotsFEFO db item.item_id) q).2
      then .error .insufficientStock
      else .ok (sweepZeroLots
        (dispatchLoop item.item_id r.reason db (lockLotsFEFO db item.item_id) q).1) := by
  unfold dispatch
  rw [hq, hfind]
  simp [hv]

theorem dispatch_ok_fields {db : DB} {r : DispatchReq} {q : Int} {item : Item} {db' : DB}
    (hdb : (db.lots.map (fun l => l.lot_id)).Nodup)
    (hv : dispatchValid r = true)
    (hq : r.quantity = some q)
    (hfind : findItemBySku db r.sku = some item)
    (hok : dispatch db r = .ok db') :
    db'.items = db.items ∧
    db'.lots = (db.lots.map
        (decrByTakes (fefoTakes q (lockLotsFEFO db item.item_id)))).filter
        (fun l => decide (0 < l.quantity)) ∧
    db'.txns = db.txns ++ (fefoTakes q (lockLotsFEFO db item.item_id)).map
        (mkDispatchTx item.item_id r.reason) ∧
    db'.nextItemId = db.nextItemId ∧
    db'.nextLotId = db.nextLotId ∧
    fefoRemaining q (lockLotsFEFO db item.item_id) ≤ 0 := by
  have hVmem : ∀ l ∈ lockLotsFEFO db item.item_id, l ∈ db.lots :=
    fun l hl => (lockLotsFEFO_mem.mp hl).1
  have hVids := lockLotsFEFO_ids_nodup hdb item.item_id
  obtain ⟨hitems, hlots, htxns, hni, hnl, hrem⟩ :=
    dispatchLoop_spec item.item_id r.reason (lockLotsFEFO db item.item_id) db q
      hdb hVmem hVids
  rw [dispatch_found_eq hv hq hfind, hrem] at hok
  by_cases h : 0 < fefoRemaining q (lockLotsFEFO db item.item_id)
  · simp [h] at hok
  · rw [if_neg h] at hok
    have hdb' : sweepZeroLots
        (dispatchLoop item.item_id r.reason db (lockLotsFEFO db item.item_id) q).1
        = db' := by
      simpa using hok
    subst hdb'
    refine ⟨hitems, ?_, htxns, hni, hnl, by omega⟩
    show ((dispatchLoop item.item_id r.reason db (lockLotsFEFO db item.item_id)
      q).1.lots).filter _ = _
    rw [hlots]

theorem dispatch_insufficient {db : DB} {r : DispatchReq} {q : Int} {item : Item}
    (hdb : (db.lots.map (fun l => l.lot_id)).Nodup)
    (hpos : ∀ l ∈ db.lots, 0 < l.quantity)
    (hv : dispatchValid r = true)
    (hq : r.quantity = some q)
    (hfind : findItemBySku db r.sku = some item)
    (hgt : currentStock db item.item_id < q) :
    dispatch db r = .error .insufficientStock := by
  have hVmem : ∀ l ∈ lockLotsFEFO db item.item_id, l ∈ db.lots :=
    fun l hl => (lockLotsFEFO_mem.mp hl).1
  have hVids := lockLotsFEFO_ids_nodup hdb item.item_id
  obtain ⟨_, _, _, _, _, hrem⟩ :=
    dispatchLoop_spec item.item_id r.reason (lockLotsFEFO db item.item_id) db q
      hdb hVmem hVids
  have hge := fefoRemaining_ge (lockLotsFEFO db item.item_id) q
    (fun l hl => le_of_lt (lockLotsFEFO_mem.mp hl).2.2)
  rw [sum_lockLotsFEFO db item.item_id hpos] at hge
  rw [dispatch_found_eq hv hq hfind, hrem]
  have : 0 < fefoRemaining q (lockLotsFEFO db item.item_id) := by omega
  rw [if_pos this]

/-! ### The receive handler and the state invariant -/

theorem receiveValid_elim {r : ReceiveReq} (h : receiveValid r = true) :
    ∃ q, r.quantity = some q ∧ 0 < q ∧ r.sku ≠ "" ∧ r.lot_no ≠ "" ∧
      r.expiry_date ≠ "" := by
  unfold receiveValid at h
  cases hq : r.quantity with
  | none => rw [hq] at h; simp at h
  | some q =>
    rw [hq] at h
    simp only [Bool.and_eq_true, bne_iff_ne, ne_eq, decide_eq_true_eq,
      Bool.not_eq_true', beq_eq_false_iff_ne] at h
    exact ⟨q, rfl, h.2, h.1.1.1, h.1.1.2, h.1.2⟩

theorem dispatchValid_elim {r : DispatchReq} (h : dispatchValid r = true) :
    ∃ q, r.quantity = some q ∧ 0 < q ∧ r.sku ≠ "" := by
  unfold dispatchValid at h
  cases hq : r.quantity with
  | none => rw [hq] at h; simp at h
  | some q =>
    rw [hq] at h
    simp only [Bool.and_eq_true, decide_eq_true_eq, Bool.not_eq_true',
      beq_eq_false_iff_ne, ne_eq] at h
    exact ⟨q, rfl, h.2, h.1⟩

theorem insertItemUpsert_fields (db : DB) (name sku : String)
    (category unit : Option String) (ml : Int) :
    (insertItemUpsert db name sku category unit ml).1.lots = db.lots ∧
    (insertItemUpsert db name sku category unit ml).1.txns = db.txns ∧
    (insertItemUpsert db name sku category unit ml).1.nextLotId = db.nextLotId ∧
    ((∀ i ∈ db.items, i.is_active = true) →
      ∀ i ∈ (insertItemUpsert db name sku category unit ml).1.items,
        i.is_active = true) := by
  unfold insertItemUpsert
  cases hf : db.items.find? (fun i => i.sku == sku) with
  | some i =>
    refine ⟨rfl, rfl, rfl, ?_⟩
    intro hact j hj
    rcases List.mem_map.mp hj with ⟨j0, hj0, rfl⟩
    by_cases hs : (j0.sku == sku) = true
    · rw [if_pos hs]
      exact hact i (List.mem_of_find?_eq_some hf)
    · rw [if_neg hs]
      exact hact j0 hj0
  | none =>
    refine ⟨rfl, rfl, rfl, ?_⟩
    intro hact j hj
    rcases List.mem_append.mp hj with hj | hj
    · exact hact j hj
    · simp only [List.mem_singleton] at hj
      subst hj
      rfl

theorem map_update_ids (L : List Lot) (l0 l1 : Lot) (h : l1.lot_id = l0.lot_id) :
    (L.map (fun j => if j.lot_id == l0.lot_id then l1 else j)).map (fun l => l.lot_id)
      = L.map (fun l => l.lot_id) := by
  rw [List.map_map]
  refine List.map_congr_left ?_
  intro j _
  simp only [Function.comp_apply]
  by_cases hc : (j.lot_id == l0.lot_id) = true
  · rw [if_pos hc]
    simp only [beq_iff_eq] at hc
    rw [h, hc]
  · rw [if_neg hc]

theorem mem_map_update {L : List Lot} {l0 l1 x : Lot}
    (hx : x ∈ L.map (fun j => if j.lot_id == l0.lot_id then l1 else j)) :
    x = l1 ∨ x ∈ L := by
  rcases List.mem_map.mp hx with ⟨j, hj, rfl⟩
  by_cases hc : (j.lot_id == l0.lot_id) = true
  · rw [if_pos hc]
    left
    rfl
  · rw [if_neg hc]
    right
    exact hj

theorem upsertLot_fields {db db' : DB} {iid : Nat} {lot_no expiry : String}
    {q : Int} {location : Option String} {l' : Lot}
    (hok : upsertLot db iid lot_no expiry q location = .ok (db', l'))
    (hq : 0 < q)
    (hpos : ∀ l ∈ db.lots, 0 < l.quantity)
    (hnodup : (db.lots.map (fun l => l.lot_id)).Nodup)
    (hlt : ∀ l ∈ db.lots, l.lot_id < db.nextLotId) :
    (∀ l ∈ db'.lots, 0 < l.quantity) ∧
    (db'.lots.map (fun l => l.lot_id)).Nodup ∧
    (∀ l ∈ db'.lots, l.lot_id < db'.nextLotId) ∧
    db'.items = db.items ∧ db'.txns = db.txns ∧
    db'.nextItemId = db.nextItemId := by
  unfold upsertLot at hok
  split at hok
  · exact absurd hok (by simp)
  · split at hok
    · next l0 heq =>
      have hl0 : l0 ∈ db.lots := List.mem_of_find?_eq_some heq
      have hl0pos : 0 < l0.quantity := hpos l0 hl0
      dsimp only [] at hok
      split at hok
      · exact absurd hok (by simp)
      · next hqlt =>
        simp only [Except.ok.injEq, Prod.mk.injEq] at hok
        obtain ⟨hdb', hl'⟩ := hok
        subst hdb'
        have hid' : l'.lot_id = l0.lot_id := by rw [← hl']
        have hqty' : l'.quantity = l0.quantity + q := by rw [← hl']
        refine ⟨?_, ?_, ?_, rfl, rfl, rfl⟩
        · intro l hl
          rw [hl'] at hl
          rcases mem_map_update hl with rfl | hl
          · omega
          · exact hpos l hl
        · rw [hl', map_update_ids db.lots l0 l' hid']
          exact hnodup
        · intro l hl
          rw [hl'] at hl
          show l.lot_id < db.nextLotId
          rcases mem_map_update hl with rfl | hl
          · have := hlt l0 hl0
            omega
          · exact hlt l hl
    · next heq =>
      split at hok
      · exact absurd hok (by simp)
      · next hqlt =>
        simp only [Except.ok.injEq, Prod.mk.injEq] at hok
        obtain ⟨hdb', hl'⟩ := hok
        subst hdb'
        refine ⟨?_, ?_, ?_, rfl, rfl, rfl⟩
        · intro l hl
          rcases List.mem_append.mp hl with hl | hl
          · exact hpos l hl
          · simp only [List.mem_singleton] at hl
            subst hl
            exact hq
        · rw [List.map_append, List.nodup_append]
          refine ⟨hnodup, by simp, ?_⟩
          intro x hx hx2
          simp only [List.map_cons, List.map_nil, List.mem_singleton] at hx2
          subst hx2
          rcases List.mem_map.mp hx with ⟨l, hl, hid⟩
          have := hlt l hl
          have hid2 : l.lot_id = db.nextLotId := by simpa using hid
          omega
        · intro l hl
          show l.lot_id < db.nextLotId + 1
          rcases List.mem_append.mp hl with hl | hl
          · have := hlt l hl
            omega
          · simp only [List.mem_singleton] at hl
            subst hl
            show db.nextLotId < db.nextLotId + 1
            omega

theorem receive_ok_decompose {db : DB} {r : ReceiveReq} {db' : DB}
    (hok : receive db r = .ok db') :
    ∃ (q : Int) (step : DB × Item) (db2 : DB) (lot : Lot),
      r.quantity = some q ∧ receiveValid r = true ∧
      ((findItemBySku db r.sku = some step.2 ∧ step.1 = db) ∨
        (findItemBySku db r.sku = none ∧
          step = insertItemUpsert db r.sku r.sku none none 0)) ∧
      upsertLot step.1 step.2.item_id r.lot_no r.expiry_date q r.location
        = .ok (db2, lot) ∧
      db' = insertTx db2 (some step.2.item_id) (some lot.lot_id) q .RECEIVE
        (some ("Stock received")) := by
  unfold receive at hok
  split at hok
  · exact absurd hok (by simp)
  · next hval =>
    have hv : receiveValid r = true := by simpa using hval
    cases hq : r.quantity with
    | none => rw [hq] at hok; exact absurd hok (by simp)
    | some q =>
      rw [hq] at hok
      dsimp only [] at hok
      cases hfi : findItemBySku db r.sku with
      | some item =>
        rw [hfi] at hok
        dsimp only [] at hok
        cases hup : upsertLot db item.item_id r.lot_no r.expiry_date q r.location with
        | error e => rw [hup] at hok; exact absurd hok (by simp)
        | ok pr =>
          obtain ⟨db2, lot⟩ := pr
          rw [hup] at hok
          simp only [Except.ok.injEq] at hok
          exact ⟨q, (db, item), db2, lot, rfl, hv, Or.inl ⟨rfl, rfl⟩, hup, hok.symm⟩
      | none =>
        rw [hfi] at hok
        dsimp only [] at hok
        cases hup : upsertLot (insertItemUpsert db r.sku r.sku none none 0).1
            (insertItemUpsert db r.sku r.sku none none 0).2.item_id
            r.lot_no r.expiry_date q r.location with
        | error e => rw [hup] at hok; exact absurd hok (by simp)
        | ok pr =>
          obtain ⟨db2, lot⟩ := pr
          rw [hup] at hok
          simp only [Except.ok.injEq] at hok
          exact ⟨q, insertItemUpsert db r.sku r.sku none none 0, db2, lot, rfl, hv,
            Or.inr ⟨rfl, rfl⟩, hup, hok.symm⟩

theorem dispatch_notFound {db : DB} {r : DispatchReq} {q : Int}
    (hv : dispatchValid r = true) (hq : r.quantity = some q)
    (hfi : findItemBySku db r.sku = none) : dispatch db r = .error .notFound := by
  unfold dispatch
  rw [hq, hfi]
  simp [hv]

/-! ### Invariant preservation and reachability -/

theorem Inv_init : Inv DB.init := by
  refine ⟨?_, ?_, ?_, ?_⟩ <;> simp [DB.init]

theorem Inv_register {db : DB} {r : RegisterReq} {db' : DB} {it : Item}
    (h : Inv db) (hok : registerItem db r = .ok (db', it)) : Inv db' := by
  unfold registerItem at hok
  split at hok
  · exact absurd hok (by simp)
  · simp only [Except.ok.injEq] at hok
    have hdb' : (insertItemUpsert db r.name r.sku r.category r.unit r.min_level).1 = db' :=
      congrArg Prod.fst hok
    obtain ⟨hlots, htxns, hnl, hact⟩ :=
      insertItemUpsert_fields db r.name r.sku r.category r.unit r.min_level
    subst hdb'
    refine ⟨?_, ?_, ?_, ?_⟩
    · rw [hlots]
      exact h.lot_qty_pos
    · rw [hlots]
      exact h.lot_ids_nodup
    · rw [hlots, hnl]
      exact h.lot_id_lt
    · exact hact h.items_active

theorem Inv_receive {db : DB} {r : ReceiveReq} {db' : DB}
    (h : Inv db) (hok : receive db r = .ok db') : Inv db' := by
  obtain ⟨q, step, db2, lot, hq, hvalid, hstep, hup, hdb'⟩ := receive_ok_decompose hok
  obtain ⟨q', hq', hq0', _⟩ := receiveValid_elim hvalid
  rw [hq] at hq'
  have hq0 : 0 < q := by
    injection hq' with hqq
    omega
  have hstep1 : step.1.lots = db.lots ∧ step.1.nextLotId = db.nextLotId ∧
      (∀ i ∈ step.1.items, i.is_active = true) := by
    rcases hstep with ⟨hfi, hsd⟩ | ⟨hfi, hsd⟩
    · rw [hsd]
      exact ⟨rfl, rfl, h.items_active⟩
    · rw [hsd]
      obtain ⟨a, b, c, d⟩ := insertItemUpsert_fields db r.sku r.sku none none 0
      exact ⟨a, c, d h.items_active⟩
  obtain ⟨hsl, hsn, hsa⟩ := hstep1
  obtain ⟨p1, p2, p3, p4, p5, p6⟩ := upsertLot_fields hup hq0
    (by rw [hsl]; exact h.lot_qty_pos)
    (by rw [hsl]; exact h.lot_ids_nodup)
    (by rw [hsl, hsn]; exact h.lot_id_lt)
  subst hdb'
  refine ⟨p1, p2, p3, ?_⟩
  intro i hi
  have hi2 : i ∈ db2.items := hi
  rw [p4] at hi2
  exact hsa i hi2

theorem Inv_dispatch {db : DB} {r : DispatchReq} {db' : DB}
    (h : Inv db) (hok : dispatch db r = .ok db') : Inv db' := by
  have hv : dispatchValid r = true := by
    by_contra hv
    unfold dispatch at hok
    rw [if_pos (by simpa using hv)] at hok
    exact absurd hok (by simp)
  obtain ⟨q, hq, hq0, _⟩ := dispatchValid_elim hv
  cases hfi : findItemBySku db r.sku with
  | none => rw [dispatch_notFound hv hq hfi] at hok; exact absurd hok (by simp)
  | some item =>
    obtain ⟨hitems, hlots, htxns, hni, hnl, hrem⟩ :=
      dispatch_ok_fields h.lot_ids_nodup hv hq hfi hok
    refine ⟨?_, ?_, ?_, ?_⟩
    · intro l hl
      rw [hlots] at hl
      have := (List.mem_filter.mp hl).2
      simpa using this
    · rw [hlots]
      have h1 : ((db.lots.map (decrByTakes (fefoTakes q (lockLotsFEFO db
          item.item_id)))).filter (fun l => decide (0 < l.quantity))).Sublist
          (db.lots.map (decrByTakes (fefoTakes q (lockLotsFEFO db item.item_id)))) :=
        List.filter_sublist _
      have h2 := List.Sublist.map (fun l => l.lot_id) h1
      refine List.Nodup.sublist h2 ?_
      rw [List.map_map]
      have h3 : ∀ l ∈ db.lots, ((fun l => l.lot_id) ∘
          decrByTakes (fefoTakes q (lockLotsFEFO db item.item_id))) l = l.lot_id := by
        intro l _
        simp only [Function.comp_apply]
        exact decrByTakes_lot_id _ l
      rw [List.map_congr_left h3]
      exact h.lot_ids_nodup
    · intro l hl
      rw [hlots] at hl
      rw [hnl]
      have hl2 := (List.mem_filter.mp hl).1
      rcases List.mem_map.mp hl2 with ⟨l0, hl0, rfl⟩
      rw [decrByTakes_lot_id]
      exact h.lot_id_lt l0 hl0
    · intro i hi
      rw [hitems] at hi
      exact h.items_active i hi

theorem Reachable_inv {db : DB} (h : Reachable db) : Inv db := by
  induction h with
  | init => exact Inv_init
  | register db r db' it _ hok ih => exact Inv_register ih hok
  | recv db r db' _ hok ih => exact Inv_receive ih hok
  | disp db r db' _ hok ih => exact Inv_dispatch ih hok

/-! ### Further handler characterizations -/

theorem isValidDate_ne_empty {e : String} (h : isValidDate e = true) : e ≠ "" := by
  intro he
  rw [he] at h
  exact absurd h (by decide)

theorem upsertLot_insert_eq {db : DB} {iid : Nat} {lot_no expiry : String}
    {q : Int} {location : Option String}
    (hdate : isValidDate expiry = true) (hq : 0 ≤ q)
    (hf : db.lots.find? (fun l => l.item_id == iid && l.lot_no == lot_no) = none) :
    upsertLot db iid lot_no expiry q location = .ok ({ db with
      lots := db.lots ++ [⟨db.nextLotId, iid, lot_no, expiry, q, location⟩],
      nextLotId := db.nextLotId + 1 },
      ⟨db.nextLotId, iid, lot_no, expiry, q, location⟩) := by
  unfold upsertLot
  rw [if_neg (by simp [hdate]), hf, if_neg (by omega)]

theorem upsertLot_update_eq {db : DB} {iid : Nat} {lot_no expiry : String}
    {q : Int} {location : Option String} {l0 : Lot}
    (hdate : isValidDate expiry = true)
    (hf : db.lots.find? (fun l => l.item_id == iid && l.lot_no == lot_no) = some l0)
    (hq : 0 ≤ l0.quantity + q) :
    upsertLot db iid lot_no expiry q location = .ok ({ db with
      lots := db.lots.map (fun j => if j.lot_id == l0.lot_id
        then (⟨l0.lot_id, l0.item_id, l0.lot_no, expiry, l0.quantity + q,
          match location with
          | some x => some x
          | none => l0.location⟩ : Lot) else j) },
      ⟨l0.lot_id, l0.item_id, l0.lot_no, expiry, l0.quantity + q,
        match location with
        | some x => some x
        | none => l0.location⟩) := by
  unfold upsertLot
  rw [if_neg (by simp [hdate]), hf]
  dsimp only []
  rw [if_neg (show ¬ (l0.quantity + q < 0) by omega)]

theorem receive_found_eq {db : DB} {r : ReceiveReq} {q : Int} {item : Item}
    (hv : receiveValid r = true) (hq : r.quantity = some q)
    (hfi : findItemBySku db r.sku = some item) :
    receive db r =
      match upsertLot db item.item_id r.lot_no r.expiry_date q r.location with
      | .error e => .error e
      | .ok (db2, lot) => .ok (insertTx db2 (some item.item_id) (some lot.lot_id)
          q .RECEIVE (some ("Stock received"))) := by
  unfold receive
  rw [hq, hfi]
  simp [hv]

theorem receive_new_eq {db : DB} {r : ReceiveReq} {q : Int}
    (hv : receiveValid r = true) (hq : r.quantity = some q)
    (hfi : findItemBySku db r.sku = none) :
    receive db r =
      match upsertLot (insertItemUpsert db r.sku r.sku none none 0).1
          (insertItemUpsert db r.sku r.sku none none 0).2.item_id
          r.lot_no r.expiry_date q r.location with
      | .error e => .error e
      | .ok (db2, lot) => .ok (insertTx db2
          (some (insertItemUpsert db r.sku r.sku none none 0).2.item_id)
          (some lot.lot_id) q .RECEIVE (some ("Stock received"))) := by
  unfold receive
  rw [hq, hfi]
  simp [hv]

theorem insertItemUpsert_new_eq {db : DB} {name sku : String}
    {category unit : Option String} {ml : Int}
    (hf : db.items.find? (fun i => i.sku == sku) = none) :
    insertItemUpsert db name sku category unit ml
      = ({ db with items := db.items ++ [⟨db.nextItemId, name, sku, category,
          unit, ml, true⟩], nextItemId := db.nextItemId + 1 },
        ⟨db.nextItemId, name, sku, category, unit, ml, true⟩) := by
  unfold insertItemUpsert
  rw [hf]

/-! ### Sums over filtered lot lists -/

theorem sum_filter_pos (p : Lot → Bool) : ∀ (L : List Lot),
    (∀ l ∈ L, 0 ≤ l.quantity) →
    ((L.filter (fun l => p l && decide (0 < l.quantity))).map
      (fun l => l.quantity)).sum
      = ((L.filter p).map (fun l => l.quantity)).sum
  | [], _ => rfl
  | h :: t, hn => by
    have hh := hn h (List.mem_cons_self _ _)
    have ht : ∀ l ∈ t, 0 ≤ l.quantity := fun l hl => hn l (List.mem_cons_of_mem _ hl)
    rw [List.filter_cons, List.filter_cons]
    by_cases hp : p h = true
    · by_cases hq : 0 < h.quantity
      · rw [if_pos (by simp [hp, hq]), if_pos (by simp [hp])]
        simp only [List.map_cons, List.sum_cons]
        rw [sum_filter_pos p t ht]
      · rw [if_neg (by simp [hq]), if_pos (by simp [hp])]
        simp only [List.map_cons, List.sum_cons]
        rw [sum_filter_pos p t ht]
        have hq0 : h.quantity = 0 := by omega
        omega
    · rw [if_neg (by simp [hp]), if_neg (by simp [hp])]
      exact sum_filter_pos p t ht

theorem subperm_qty_sum_le {V L : List Lot} (h : V.Subperm L)
    (hn : ∀ l ∈ L, 0 ≤ l.quantity) :
    (V.map (fun l => l.quantity)).sum ≤ (L.map (fun l => l.quantity)).sum := by
  obtain ⟨w, hperm, hsub⟩ := List.subperm_iff.mp h
  have h1 := List.Sublist.map (fun l => l.quantity) hsub
  have h2 : ((w.map (fun l => l.quantity)).sum)
      = (L.map (fun l => l.quantity)).sum := (hperm.map _).sum_eq
  have h3 : ∀ x ∈ w.map (fun l => l.quantity), 0 ≤ x := by
    intro x hx
    rcases List.mem_map.mp hx with ⟨l, hl, rfl⟩
    exact hn l (hperm.mem_iff.mp hl)
  calc (V.map (fun l => l.quantity)).sum
      ≤ (w.map (fun l => l.quantity)).sum := List.Sublist.sum_le_sum h1 h3
    _ = (L.map (fun l => l.quantity)).sum := h2

/-! ### Alerts -/

theorem earliestExpiry_eq_none {db : DB} {iid : Nat} :
    earliestExpiry db iid = none ↔
      db.lots.filter (fun l => l.item_id == iid) = [] := by
  unfold earliestExpiry
  rcases hf : db.lots.filter (fun l => l.item_id == iid) with _ | ⟨a, b⟩
  · rw [hf]
    simp
  · rw [hf]
    simp

theorem mem_alerts_iff {db : DB} {cutoff : String} {i : Item} (hi : i ∈ db.items) :
    alertRowOf db i ∈ alerts db cutoff ↔
      alertCond cutoff (alertRowOf db i) = true := by
  unfold alerts
  rw [(sortLe_perm _ _).mem_iff, List.mem_filter]
  constructor
  · rintro ⟨_, h⟩
    exact h
  · intro h
    exact ⟨List.mem_map_of_mem _ hi, h⟩

theorem alerts_sorted (db : DB) (cutoff : String) :
    (alerts db cutoff).Pairwise (fun a b => strLe a.name b.name = true) := by
  unfold alerts
  exact @sortLe_pairwise AlertRow (fun a b => strLe a.name b.name)
    (fun x y => strLe_total x.name y.name)
    (fun x y z h1 h2 => strLe_trans h1 h2) _

/-! ### Stock arithmetic of a successful dispatch -/

theorem fefoTakes_ids_nodup {db : DB} {iid : Nat} (q : Int)
    (hnodup : (db.lots.map (fun l => l.lot_id)).Nodup) :
    ((fefoTakes q (lockLotsFEFO db iid)).map (fun p => p.1.lot_id)).Nodup := by
  refine List.Nodup.sublist ?_ (lockLotsFEFO_ids_nodup hnodup iid)
  have h := List.Sublist.map (fun l => l.lot_id)
    (fefoTakes_fst_sublist (lockLotsFEFO db iid) q)
  rw [List.map_map] at h
  exact h

theorem dispatch_stock {db : DB} {r : DispatchReq} {q : Int} {item : Item} {db' : DB}
    (hpos : ∀ l ∈ db.lots, 0 < l.quantity)
    (hnodup : (db.lots.map (fun l => l.lot_id)).Nodup)
    (hv : dispatchValid r = true)
    (hq : r.quantity = some q)
    (hfi : findItemBySku db r.sku = some item)
    (hok : dispatch db r = .ok db') :
    currentStock db' item.item_id = currentStock db item.item_id - q := by
  obtain ⟨q', hq', hq0', _⟩ := dispatchValid_elim hv
  rw [hq] at hq'
  have hq0 : 0 < q := by
    injection hq' with e
    omega
  obtain ⟨hitems, hlots, htxns, hni, hnl, hrem⟩ := dispatch_ok_fields hnodup hv hq hfi hok
  have hrem0 : fefoRemaining q (lockLotsFEFO db item.item_id) = 0 :=
    le_antisymm hrem (fefoRemaining_nonneg _ q (by omega))
  have hsumtk : ((fefoTakes q (lockLotsFEFO db item.item_id)).map
      (fun p => p.2)).sum = q := by
    rw [sum_fefoTakes]
    omega
  have htkmem : ∀ p ∈ fefoTakes q (lockLotsFEFO db item.item_id),
      p.1 ∈ db.lots.filter (fun l => l.item_id == item.item_id) := by
    intro p hp
    have h1 := (fefoTakes_mem_le _ q p hp).1
    have h2 := lockLotsFEFO_mem.mp h1
    exact List.mem_filter.mpr ⟨h2.1, by simp [h2.2.1]⟩
  have htkle : ∀ p ∈ fefoTakes q (lockLotsFEFO db item.item_id),
      p.2 ≤ p.1.quantity := fun p hp => (fefoTakes_mem_le _ q p hp).2
  have htkids := @fefoTakes_ids_nodup db item.item_id q hnodup
  have hMnn : ∀ l ∈ db.lots.map
      (decrByTakes (fefoTakes q (lockLotsFEFO db item.item_id))), 0 ≤ l.quantity := by
    intro l hl
    rcases List.mem_map.mp hl with ⟨l0, hl0, rfl⟩
    refine decrByTakes_qty_nonneg hnodup ?_ hl0 (le_of_lt (hpos l0 hl0))
    intro p hp
    exact ⟨(List.mem_filter.mp (htkmem p hp)).1, htkle p hp⟩
  unfold currentStock
  rw [hlots, List.filter_filter, sum_filter_pos _ _ hMnn, List.filter_map]
  have hpc : ∀ l ∈ db.lots,
      ((fun l => l.item_id == item.item_id)
        ∘ decrByTakes (fefoTakes q (lockLotsFEFO db item.item_id))) l
      = (l.item_id == item.item_id) := by
    intro l _
    simp only [Function.comp_apply]
    rw [decrByTakes_item_id]
  rw [List.filter_congr hpc, List.map_map]
  have hLids : ((db.lots.filter (fun l => l.item_id == item.item_id)).map
      (fun l => l.lot_id)).Nodup :=
    List.Nodup.sublist (List.Sublist.map _ (List.filter_sublist _)) hnodup
  have hfinal := sum_decrByTakes (fefoTakes q (lockLotsFEFO db item.item_id))
    (db.lots.filter (fun l => l.item_id == item.item_id)) hLids htkids htkmem
  calc ((db.lots.filter (fun l => l.item_id == item.item_id)).map
        ((fun l => l.quantity)
          ∘ decrByTakes (fefoTakes q (lockLotsFEFO db item.item_id)))).sum
      = ((db.lots.filter (fun l => l.item_id == item.item_id)).map
          (fun l => (decrByTakes (fefoTakes q (lockLotsFEFO db item.item_id))
            l).quantity)).sum := rfl
    _ = ((db.lots.filter (fun l => l.item_id == item.item_id)).map
          (fun l => l.quantity)).sum
        - ((fefoTakes q (lockLotsFEFO db item.item_id)).map (fun p => p.2)).sum :=
        hfinal
    _ = ((db.lots.filter (fun l => l.item_id == item.item_id)).map
          (fun l => l.quantity)).sum - q := by rw [hsumtk]

theorem dispatch_frame {db : DB} {r : DispatchReq} {q : Int} {item : Item} {db' : DB}
    (hpos : ∀ l ∈ db.lots, 0 < l.quantity)
    (hnodup : (db.lots.map (fun l => l.lot_id)).Nodup)
    (hv : dispatchValid r = true)
    (hq : r.quantity = some q)
    (hfi : findItemBySku db r.sku = some item)
    (hok : dispatch db r = .ok db') :
    db'.lots.filter (fun l => !(l.item_id == item.item_id))
      = db.lots.filter (fun l => !(l.item_id == item.item_id)) := by
  obtain ⟨hitems, hlots, htxns, hni, hnl, hrem⟩ := dispatch_ok_fields hnodup hv hq hfi hok
  have hdec : ∀ l ∈ db.lots, l.item_id ≠ item.item_id →
      decrByTakes (fefoTakes q (lockLotsFEFO db item.item_id)) l = l := by
    intro l hl hne
    refine decrByTakes_eq_of_not_mem ?_
    intro hmem
    rcases List.mem_map.mp hmem with ⟨p, hp, hpe⟩
    have h1 := (fefoTakes_mem_le _ q p hp).1
    have h2 := lockLotsFEFO_mem.mp h1
    have h3 : p.1 = l := List.inj_on_of_nodup_map hnodup h2.1 hl hpe
    refine hne ?_
    rw [← h3]
    exact h2.2.1
  rw [hlots, List.filter_filter, List.filter_map]
  have hcong : ∀ l ∈ db.lots,
      ((fun l => !(l.item_id == item.item_id) && decide (0 < l.quantity))
        ∘ decrByTakes (fefoTakes q (lockLotsFEFO db item.item_id))) l
      = (!(l.item_id == item.item_id) && decide (0 < l.quantity)) := by
    intro l hl
    simp only [Function.comp_apply]
    by_cases hi : l.item_id = item.item_id
    · rw [decrByTakes_item_id]
      simp [hi]
    · rw [hdec l hl hi]
  rw [List.filter_congr hcong]
  have hid : ∀ l ∈ db.lots.filter
      (fun l => !(l.item_id == item.item_id) && decide (0 < l.quantity)),
      decrByTakes (fefoTakes q (lockLotsFEFO db item.item_id)) l = l := by
    intro l hl
    have h1 := List.mem_filter.mp hl
    have h2 : l.item_id ≠ item.item_id := by
      have := h1.2
      simp only [Bool.and_eq_true, Bool.not_eq_true', beq_eq_false_iff_ne, ne_eq] at this
      exact this.1
    exact hdec l h1.1 h2
  rw [List.map_congr_left hid]
  have hmapid : (db.lots.filter (fun l => !(l.item_id == item.item_id)
      && decide (0 < l.quantity))).map (fun a => a)
      = db.lots.filter (fun l => !(l.item_id == item.item_id)
      && decide (0 < l.quantity)) := List.map_id _
  rw [hmapid]
  refine List.filter_congr ?_
  intro l hl
  have := hpos l hl
  simp [this]

/-! ### Reads ignore the active flag -/

theorem alerts_setInactive (db : DB) (cutoff : String) :
    alerts (setInactive db) cutoff = alerts db cutoff := by
  unfold alerts
  congr 1
  congr 1
  show (db.items.map (fun i => { i with is_active := false })).map
      (alertRowOf (setInactive db)) = db.items.map (alertRowOf db)
  rw [List.map_map]
  exact List.map_congr_left (fun i _ => rfl)

theorem stats_setInactive (db : DB) (cutoff : String) :
    stats (setInactive db) cutoff = stats db cutoff := by
  have h1 : (setInactive db).items.length = db.items.length :=
    List.length_map db.items (fun i : Item => ({ i with is_active := false } : Item))
  have h2 : ((setInactive db).items.filter (fun i =>
      decide (currentStock (setInactive db) i.item_id < i.min_level))).length
      = (db.items.filter (fun i =>
        decide (currentStock db i.item_id < i.min_level))).length := by
    have e1 : (setInactive db).items.filter (fun i =>
        decide (currentStock (setInactive db) i.item_id < i.min_level))
        = (db.items.filter (fun i =>
          decide (currentStock db i.item_id < i.min_level))).map
          (fun i : Item => { i with is_active := false }) := by
      have e2 : (setInactive db).items.filter (fun i =>
          decide (currentStock (setInactive db) i.item_id < i.min_level))
          = (db.items.map (fun i : Item => { i with is_active := false })).filter
            (fun i => decide (currentStock (setInactive db) i.item_id
              < i.min_level)) := rfl
      rw [e2, List.filter_map]
      exact congrArg (List.map (fun i : Item => ({ i with is_active := false } : Item)))
        (List.filter_congr (fun i _ => rfl))
    rw [e1, List.length_map]
  unfold stats
  rw [h1, h2]
  rfl

theorem recentTx_setInactive (db : DB) (lim : Nat) :
    recentTx (setInactive db) lim = recentTx db lim := by
  unfold recentTx
  refine List.map_congr_left ?_
  intro t _
  cases hti : t.item_id with
  | none => rfl
  | some iid =>
    have hsku : ((setInactive db).items.find?
        (fun i => i.item_id == iid)).map (fun i => i.sku)
        = (db.items.find? (fun i => i.item_id == iid)).map (fun i => i.sku) := by
      have e2 : (setInactive db).items.find? (fun i => i.item_id == iid)
          = (db.items.map (fun i : Item => { i with is_active := false })).find?
            (fun i => i.item_id == iid) := rfl
      rw [e2, List.find?_map]
      rw [show ((fun i : Item => i.item_id == iid)
        ∘ (fun i : Item => ({ i with is_active := false } : Item)))
        = (fun i : Item => i.item_id == iid) from funext (fun i => rfl)]
      cases db.items.find? (fun i => i.item_id == iid) with
      | none => rfl
      | some i => rfl
    have hrow : (((some iid).bind (fun iid => (setInactive db).items.find?
        (fun i => i.item_id == iid))).map (fun i => i.sku))
        = (((some iid).bind (fun iid => db.items.find?
        (fun i => i.item_id == iid))).map (fun i => i.sku)) := hsku
    simp only [TxRow.mk.injEq, hti, hrow]
    exact ⟨trivial, trivial, trivial, rfl, rfl, rfl⟩

theorem listItems_setInactive (db : DB) (s : Option String) :
    listItems (setInactive db) s
      = (listItems db s).map (fun r => { r with is_active := false }) := by
  unfold listItems
  have hfl : (setInactive db).items.filter (fun i =>
      match s with
      | none => true
      | some s => ilikeContains i.name s || ilikeContains i.sku s)
      = (db.items.filter (fun i =>
      match s with
      | none => true
      | some s => ilikeContains i.name s || ilikeContains i.sku s)).map
        (fun i : Item => { i with is_active := false }) := by
    have e2 : (setInactive db).items.filter (fun i =>
        match s with
        | none => true
        | some s => ilikeContains i.name s || ilikeContains i.sku s)
        = (db.items.map (fun i : Item => { i with is_active := false })).filter
          (fun i =>
          match s with
          | none => true
          | some s => ilikeContains i.name s || ilikeContains i.sku s) := rfl
    rw [e2, List.filter_map]
    exact congrArg (List.map (fun i : Item => ({ i with is_active := false } : Item)))
      (List.filter_congr (fun i _ => rfl))
  rw [hfl, List.map_map]
  rw [show ((fun i : Item =>
      ({ item_id := i.item_id, name := i.name, sku := i.sku,
         category := i.category, unit := i.unit, min_level := i.min_level,
         is_active := i.is_active,
         current_stock := currentStock (setInactive db) i.item_id } : StockRow))
      ∘ (fun i : Item => ({ i with is_active := false } : Item)))
    = ((fun r : StockRow => ({ r with is_active := false } : StockRow))
      ∘ (fun i : Item =>
      ({ item_id := i.item_id, name := i.name, sku := i.sku,
         category := i.category, unit := i.unit, min_level := i.min_level,
         is_active := i.is_active,
         current_stock := currentStock db i.item_id } : StockRow)))
    from funext (fun i => rfl)]
  rw [← List.map_map]
  exact @sortLe_map StockRow StockRow
    (fun r : StockRow => ({ r with is_active := false } : StockRow))
    (fun a b => strLe a.name b.name) (fun a b => strLe a.name b.name)
    (fun x y => rfl) _

/-! ### The claims -/

/-- C1: a successful Dispatch consumes the visible lots in ascending
expiry-date order (the locked selection is sorted FEFO), each consumed lot
contributing `min(remaining, lot.quantity)` (`fefoTakes`), and exactly one
DISPATCH transaction with the negative take is appended per consumed lot
(`mkDispatchTx`); in particular, from L1(2025-01-01, 5) and L2(2025-06-01, 5),
Dispatch(A, 7) leaves L1 removed, L2 at 3, and appends exactly the two
DISPATCH transactions −5 on L1 and −2 on L2. -/
theorem C1_fefo_dispatch :
    (∀ (db : DB) (r : DispatchReq) (q : Int) (item : Item) (db' : DB),
      (db.lots.map (fun l => l.lot_id)).Nodup →
      r.quantity = some q →
      findItemBySku db r.sku = some item →
      dispatch db r = .ok db' →
      (lockLotsFEFO db item.item_id).Pairwise
        (fun a b => strLe a.expiry_date b.expiry_date = true) ∧
      db'.txns = db.txns ++ (fefoTakes q (lockLotsFEFO db item.item_id)).map
        (mkDispatchTx item.item_id r.reason)) ∧
    dispatch dbTwo ⟨"A", some 7, none⟩ = .ok dbTwoAfter := by
  constructor
  · intro db r q item db' hnodup hq hfi hok
    have hv : dispatchValid r = true := by
      by_contra hv
      unfold dispatch at hok
      rw [if_pos (by simpa using hv)] at hok
      exact absurd hok (by simp)
    obtain ⟨_, _, htxns, _, _, _⟩ := dispatch_ok_fields hnodup hv hq hfi hok
    exact ⟨lockLotsFEFO_sorted db item.item_id, htxns⟩
  · rfl

/-- C1 witness: the general part of `C1_fefo_dispatch` applied to the
spec's concrete two-lot example, its hypotheses discharged by computation. -/
theorem C1_fefo_dispatch_witness :
    (dbTwo.lots.map (fun l => l.lot_id)).Nodup ∧
    ((lockLotsFEFO dbTwo 1).Pairwise
      (fun a b => strLe a.expiry_date b.expiry_date = true) ∧
    dbTwoAfter.txns = dbTwo.txns ++ (fefoTakes 7 (lockLotsFEFO dbTwo 1)).map
      (mkDispatchTx 1 none)) :=
  ⟨by decide,
    C1_fefo_dispatch.1 dbTwo ⟨"A", some 7, none⟩ 7 itemA dbTwoAfter
      (by decide) rfl rfl C1_fefo_dispatch.2⟩

/-- C2: a Dispatch requesting more than the item's total stock fails with
`InsufficientStockError` and the observed state after the call is exactly
the state before it — no lot quantity and no transaction row changes. -/
theorem C2_insufficient_rollback :
    ∀ (db : DB) (r : DispatchReq) (q : Int) (item : Item),
      (∀ l ∈ db.lots, 0 < l.quantity) →
      (db.lots.map (fun l => l.lot_id)).Nodup →
      r.sku ≠ "" →
      r.quantity = some q →
      findItemBySku db r.sku = some item →
      currentStock db item.item_id < q →
      dispatch db r = .error .insufficientStock ∧
      runState db (dispatch db r) = db := by
  intro db r q item hpos hnodup hsku hq hfi hgt
  have hstock0 : 0 ≤ currentStock db item.item_id := by
    refine List.sum_nonneg ?_
    intro x hx
    rcases List.mem_map.mp hx with ⟨l, hl, rfl⟩
    exact le_of_lt (hpos l (List.mem_filter.mp hl).1)
  have hv : dispatchValid r = true := by
    unfold dispatchValid
    rw [hq]
    simp only [Bool.and_eq_true, Bool.not_eq_true', beq_eq_false_iff_ne, ne_eq,
      decide_eq_true_eq]
    exact ⟨hsku, by omega⟩
  have hd := dispatch_insufficient hnodup hpos hv hq hfi hgt
  refine ⟨hd, ?_⟩
  rw [hd]
  rfl

/-- C2 witness: total stock 8 (lots of 5 and 3), Dispatch(A, 10) fails with
insufficient stock and leaves the state unchanged. -/
theorem C2_insufficient_rollback_witness :
    currentStock dbEight 1 < 10 ∧
    (dispatch dbEight ⟨"A", some 10, none⟩ = .error .insufficientStock ∧
      runState dbEight (dispatch dbEight ⟨"A", some 10, none⟩) = dbEight) :=
  ⟨by decide,
    C2_insufficient_rollback dbEight ⟨"A", some 10, none⟩ 10 itemA
      (by decide) (by decide) (by decide) rfl rfl (by decide)⟩

/-- C3: in every reachable state all lot quantities are non-negative (in
fact the sweep keeps them positive), and a successful Dispatch(sku, q)
lowers the item's stock by exactly q, never below zero, with every lot
still non-negative afterwards. -/
theorem C3_invariants :
    ∀ (db : DB), Reachable db →
      (∀ l ∈ db.lots, 0 ≤ l.quantity) ∧
      (∀ (r : DispatchReq) (q : Int) (item : Item) (db' : DB),
        r.quantity = some q →
        findItemBySku db r.sku = some item →
        dispatch db r = .ok db' →
        (∀ l ∈ db'.lots, 0 ≤ l.quantity) ∧
        currentStock db' item.item_id = currentStock db item.item_id - q ∧
        0 ≤ currentStock db' item.item_id) := by
  intro db hreach
  have hInv := Reachable_inv hreach
  refine ⟨fun l hl => le_of_lt (hInv.lot_qty_pos l hl), ?_⟩
  intro r q item db' hq hfi hok
  have hv : dispatchValid r = true := by
    by_contra hv
    unfold dispatch at hok
    rw [if_pos (by simpa using hv)] at hok
    exact absurd hok (by simp)
  have hInv' := Inv_dispatch hInv hok
  have hnn' : ∀ l ∈ db'.lots, 0 ≤ l.quantity :=
    fun l hl => le_of_lt (hInv'.lot_qty_pos l hl)
  refine ⟨hnn', dispatch_stock hInv.lot_qty_pos hInv.lot_ids_nodup hv hq hfi hok, ?_⟩
  refine List.sum_nonneg ?_
  intro x hx
  rcases List.mem_map.mp hx with ⟨l, hl, rfl⟩
  exact hnn' l (List.mem_filter.mp hl).1

/-- C3 witness: `dbTwo` is reachable (two receives from the fresh schema)
and Dispatch(A, 7) from it takes stock from 10 to 3, staying non-negative. -/
theorem C3_invariants_witness :
    Reachable dbTwo ∧
    ((∀ l ∈ dbTwo.lots, 0 ≤ l.quantity) ∧
     ((∀ l ∈ dbTwoAfter.lots, 0 ≤ l.quantity) ∧
      currentStock dbTwoAfter 1 = currentStock dbTwo 1 - 7 ∧
      0 ≤ currentStock dbTwoAfter 1)) := by
  have hreach : Reachable dbTwo :=
    Reachable.recv dbOne reqA2 dbTwo
      (Reachable.recv DB.init reqA1 dbOne Reachable.init rfl) rfl
  exact ⟨hreach, (C3_invariants dbTwo hreach).1,
    (C3_invariants dbTwo hreach).2 ⟨"A", some 7, none⟩ 7 itemA dbTwoAfter
      rfl rfl rfl⟩

theorem receive_fresh_spec {db : DB} {r : ReceiveReq} {q : Int}
    (hv : receiveValid r = true) (hq : r.quantity = some q)
    (hd : isValidDate r.expiry_date = true)
    (hfi : findItemBySku db r.sku = none)
    (hnolot : ∀ l ∈ db.lots, l.item_id ≠ db.nextItemId) :
    receive db r = .ok
      ⟨db.items ++ [⟨db.nextItemId, r.sku, r.sku, none, none, 0, true⟩],
       db.lots ++ [⟨db.nextLotId, db.nextItemId, r.lot_no, r.expiry_date, q,
         r.location⟩],
       db.txns ++ [⟨some db.nextItemId, some db.nextLotId, q, .RECEIVE,
         some ("Stock received")⟩],
       db.nextItemId + 1, db.nextLotId + 1⟩ := by
  obtain ⟨q', hq', hq0', _⟩ := receiveValid_elim hv
  rw [hq] at hq'
  have hq0 : 0 < q := by
    injection hq' with e
    omega
  have hr := @receive_new_eq db r q hv hq hfi
  rw [@insertItemUpsert_new_eq db r.sku r.sku none none 0 hfi] at hr
  dsimp only [] at hr
  have hfl : ({ db with
      items := db.items ++ [⟨db.nextItemId, r.sku, r.sku, none, none, 0, true⟩]
      nextItemId := db.nextItemId + 1 } : DB).lots.find?
      (fun l => l.item_id == db.nextItemId && l.lot_no == r.lot_no) = none := by
    rw [List.find?_eq_none]
    intro l hl
    simp [hnolot l hl]
  rw [upsertLot_insert_eq hd (le_of_lt hq0) hfl] at hr
  dsimp only [] at hr
  exact hr

theorem receive_existing_spec {db : DB} {r : ReceiveReq} {q : Int}
    {item : Item} {l0 : Lot}
    (hv : receiveValid r = true) (hq : r.quantity = some q)
    (hd : isValidDate r.expiry_date = true)
    (hfi : findItemBySku db r.sku = some item)
    (hlot : db.lots.find?
      (fun l => l.item_id == item.item_id && l.lot_no == r.lot_no) = some l0)
    (hpos : 0 ≤ l0.quantity + q) :
    receive db r = .ok
      ⟨db.items,
       db.lots.map (fun j => if j.lot_id == l0.lot_id
         then (⟨l0.lot_id, l0.item_id, l0.lot_no, r.expiry_date,
           l0.quantity + q,
           match r.location with
           | some x => some x
           | none => l0.location⟩ : Lot) else j),
       db.txns ++ [⟨some item.item_id, some l0.lot_id, q, .RECEIVE,
         some ("Stock received")⟩],
       db.nextItemId, db.nextLotId⟩ := by
  have hr := @receive_found_eq db r q item hv hq hfi
  rw [upsertLot_update_eq hd hlot hpos] at hr
  dsimp only [] at hr
  exact hr

/-- C4 counterexample: the claim says an already-set storage location is
not overwritten by a later Receive, but `Q_UPSERT_LOT` computes
COALESCE(EXCLUDED.location, lots.location) — the NEW location wins.
Receiving L1 with location S1 and then again with location S2 leaves the
lot at S2, not S1. -/
theorem C4_counterexample :
    dbLoc2.lots = [⟨1, 1, "L1", "2025-03-01", 15, some ("S2")⟩] ∧
    (some ("S2") : Option String) ≠ some ("S1") := by
  exact ⟨rfl, by decide⟩

/-- C4 (amended): two successful Receives of the same (sku, lotNumber)
starting from the fresh store leave the lot with the summed quantity and
the later expiry date, and with the LATER receive's location when it
supplies one — the earlier location survives only when the later request
carries none (COALESCE(EXCLUDED.location, lots.location) in
`Q_UPSERT_LOT`). -/
theorem C4_amended :
    ∀ (s ln e1 e2 : String) (q1 q2 : Int) (loc1 loc2 : Option String),
      s ≠ "" → ln ≠ "" →
      isValidDate e1 = true → isValidDate e2 = true →
      0 < q1 → 0 < q2 →
      ∃ db1, receive DB.init ⟨s, ln, e1, some q1, loc1⟩ = .ok db1 ∧
        ∃ db2, receive db1 ⟨s, ln, e2, some q2, loc2⟩ = .ok db2 ∧
          db2.lots = [⟨1, 1, ln, e2, q1 + q2, coalesce loc2 loc1⟩] := by
  intro s ln e1 e2 q1 q2 loc1 loc2 hs hln hd1 hd2 hq1 hq2
  have he1 := isValidDate_ne_empty hd1
  have he2 := isValidDate_ne_empty hd2
  have hv1 : receiveValid ⟨s, ln, e1, some q1, loc1⟩ = true := by
    unfold receiveValid
    simp only [Bool.and_eq_true, Bool.not_eq_true', beq_eq_false_iff_ne, ne_eq,
      decide_eq_true_eq]
    exact ⟨⟨⟨hs, hln⟩, he1⟩, hq1⟩
  have hv2 : receiveValid ⟨s, ln, e2, some q2, loc2⟩ = true := by
    unfold receiveValid
    simp only [Bool.and_eq_true, Bool.not_eq_true', beq_eq_false_iff_ne, ne_eq,
      decide_eq_true_eq]
    exact ⟨⟨⟨hs, hln⟩, he2⟩, hq2⟩
  refine ⟨⟨[⟨1, s, s, none, none, 0, true⟩],
           [⟨1, 1, ln, e1, q1, loc1⟩],
           [⟨some 1, some 1, q1, .RECEIVE, some ("Stock received")⟩],
           2, 2⟩, ?_, ?_⟩
  · exact receive_fresh_spec hv1 rfl hd1 rfl (by simp [DB.init])
  · have hfi2 : findItemBySku ⟨[⟨1, s, s, none, none, 0, true⟩],
        [⟨1, 1, ln, e1, q1, loc1⟩],
        [⟨some 1, some 1, q1, .RECEIVE, some ("Stock received")⟩], 2, 2⟩ s
        = some ⟨1, s, s, none, none, 0, true⟩ :=
      List.find?_cons_of_pos _ (by simp)
    have hlot2 : (⟨[⟨1, s, s, none, none, 0, true⟩],
        [⟨1, 1, ln, e1, q1, loc1⟩],
        [⟨some 1, some 1, q1, .RECEIVE, some ("Stock received")⟩],
        2, 2⟩ : DB).lots.find?
          (fun l => l.item_id == (1 : Nat) && l.lot_no == ln)
        = some ⟨1, 1, ln, e1, q1, loc1⟩ :=
      List.find?_cons_of_pos _ (by simp)
    refine ⟨⟨[⟨1, s, s, none, none, 0, true⟩],
             [⟨1, 1, ln, e2, q1 + q2, coalesce loc2 loc1⟩],
             [⟨some 1, some 1, q1, .RECEIVE, some ("Stock received")⟩,
              ⟨some 1, some 1, q2, .RECEIVE, some ("Stock received")⟩],
             2, 2⟩, ?_, rfl⟩
    exact receive_existing_spec hv2 rfl hd2 hfi2 hlot2
      (by show (0 : Int) ≤ q1 + q2; omega)

/-- C4 witness: the amended statement at the spec's numbers — 10 then 5
gives 15, expiry overwritten to the later date, location overwritten to
S2. -/
theorem C4_amended_witness :
    isValidDate "2025-01-01" = true ∧
    (∃ db1, receive DB.init ⟨"A", "L1", "2025-01-01", some 10, some ("S1")⟩
        = .ok db1 ∧
      ∃ db2, receive db1 ⟨"A", "L1", "2025-03-01", some 5, some ("S2")⟩
          = .ok db2 ∧
        db2.lots = [⟨1, 1, "L1", "2025-03-01", 15, some ("S2")⟩]) :=
  ⟨by decide,
    C4_amended "A" "L1" "2025-01-01" "2025-03-01" 10 5 (some ("S1"))
      (some ("S2")) (by decide) (by decide) (by decide) (by decide)
      (by decide) (by decide)⟩

/-- C5 counterexample: the claim says a Receive whose expiryDate is not a
valid calendar date fails with ValidationError before any store
interaction; but the handler's check is only truthiness (`!expiry_date`),
so the non-empty invalid date "2025-02-30" passes validation
(`receiveValid = true`) and the call reaches the store and fails there as
a StorageError (HTTP 500), not a ValidationError. -/
theorem C5_counterexample :
    isValidDate reqBadDate.expiry_date = false ∧
    receiveValid reqBadDate = true ∧
    receive DB.init reqBadDate = .error .storage ∧
    receive DB.init reqBadDate ≠ .error .validation := by
  refine ⟨rfl, rfl, rfl, ?_⟩
  intro h
  rw [show receive DB.init reqBadDate = Except.error ApiError.storage from rfl] at h
  simp at h

/-- C5 (amended): a Receive with empty sku, lotNumber or expiryDate, or a
missing / non-integer / non-positive quantity, and a Dispatch with empty
sku or missing / non-integer / non-positive quantity, fail with
ValidationError and change no state, before any store interaction (the
outcome does not depend on the store contents).  Date strings that are
non-empty but not valid calendar dates are NOT caught by this validation —
they reach the store (see the counterexample). -/
theorem C5_amended :
    ∀ (db : DB),
      (∀ r : ReceiveReq,
        (r.sku = "" ∨ r.lot_no = "" ∨ r.expiry_date = "" ∨ r.quantity = none ∨
          (∃ q, r.quantity = some q ∧ q ≤ 0)) →
        receive db r = .error .validation ∧ runState db (receive db r) = db) ∧
      (∀ r : DispatchReq,
        (r.sku = "" ∨ r.quantity = none ∨ (∃ q, r.quantity = some q ∧ q ≤ 0)) →
        dispatch db r = .error .validation ∧
          runState db (dispatch db r) = db) := by
  intro db
  constructor
  · intro r h
    have hrv : receiveValid r = false := by
      unfold receiveValid
      rcases h with h | h | h | h | ⟨q, hq, hq0⟩
      · simp [h]
      · simp [h]
      · simp [h]
      · simp [h]
      · have hnq : ¬ (0 < q) := by omega
        simp [hq, hnq]
    have h1 : receive db r = .error .validation := by
      unfold receive
      rw [if_pos (by simp [hrv])]
    refine ⟨h1, ?_⟩
    rw [h1]
    rfl
  · intro r h
    have hrv : dispatchValid r = false := by
      unfold dispatchValid
      rcases h with h | h | ⟨q, hq, hq0⟩
      · simp [h]
      · simp [h]
      · have hnq : ¬ (0 < q) := by omega
        simp [hq, hnq]
    have h1 : dispatch db r = .error .validation := by
      unfold dispatch
      rw [if_pos (by simp [hrv])]
    refine ⟨h1, ?_⟩
    rw [h1]
    rfl

/-- C5 witness: the amended statement applied to an empty-sku Receive and
an empty-sku Dispatch against the fresh store. -/
theorem C5_amended_witness :
    (receive DB.init ⟨"", "L1", "2025-01-01", some 5, none⟩
        = .error .validation ∧
      runState DB.init (receive DB.init ⟨"", "L1", "2025-01-01", some 5, none⟩)
        = DB.init) ∧
    (dispatch DB.init ⟨"", some 5, none⟩ = .error .validation ∧
      runState DB.init (dispatch DB.init ⟨"", some 5, none⟩) = DB.init) :=
  ⟨(C5_amended DB.init).1 ⟨"", "L1", "2025-01-01", some 5, none⟩ (Or.inl rfl),
    (C5_amended DB.init).2 ⟨"", some 5, none⟩ (Or.inl rfl)⟩

/-- C6: Alerts(cutoff) returns exactly the items with stock below minimum
level, or with no lots at all, or whose earliest lot expiry is on or
before the cutoff date (CURRENT_DATE + d days), ordered by item name
ascending; and the client-side status is OUT when stock ≤ 0, LOW when
0 < stock < minimum level, OK otherwise. -/
theorem C6_alerts :
    ∀ (db : DB) (cutoff : String),
      (∀ i ∈ db.items,
        (alertRowOf db i ∈ alerts db cutoff ↔
          (currentStock db i.item_id < i.min_level ∨
            db.lots.filter (fun l => l.item_id == i.item_id) = [] ∨
            ∃ e, earliestExpiry db i.item_id = some e ∧
              strLe e cutoff = true))) ∧
      (alerts db cutoff).Pairwise (fun a b => strLe a.name b.name = true) ∧
      (∀ stock min_level : Int,
        (stock ≤ 0 → alertStatus stock min_level = "OUT") ∧
        (0 < stock → stock < min_level → alertStatus stock min_level = "LOW") ∧
        (0 < stock → min_level ≤ stock → alertStatus stock min_level = "OK")) := by
  intro db cutoff
  refine ⟨?_, alerts_sorted db cutoff, ?_⟩
  · intro i hi
    have hcond : alertCond cutoff (alertRowOf db i) = true ↔
        (currentStock db i.item_id < i.min_level ∨
          earliestExpiry db i.item_id = none ∨
          ∃ e, earliestExpiry db i.item_id = some e ∧
            strLe e cutoff = true) := by
      unfold alertCond alertRowOf
      dsimp only []
      cases he : earliestExpiry db i.item_id with
      | none => simp [he]
      | some e0 => simp [he]
    rw [mem_alerts_iff hi, hcond, earliestExpiry_eq_none]
  · intro stock min_level
    refine ⟨fun h => ?_, fun h1 h2 => ?_, fun h1 h2 => ?_⟩
    · unfold alertStatus
      rw [if_pos h]
    · unfold alertStatus
      rw [if_neg (by omega), if_pos h2]
    · unfold alertStatus
      rw [if_neg (by omega), if_neg (by omega)]

/-- C6 witness: the membership test of `C6_alerts` applied to item A in
the two-lot state with cutoff 2025-03-15 (L1 expires before the cutoff,
so A is alerted). -/
theorem C6_alerts_witness :
    itemA ∈ dbTwo.items ∧
    (alertRowOf dbTwo itemA ∈ alerts dbTwo "2025-03-15" ↔
      (currentStock dbTwo itemA.item_id < itemA.min_level ∨
        dbTwo.lots.filter (fun l => l.item_id == itemA.item_id) = [] ∨
        ∃ e, earliestExpiry dbTwo itemA.item_id = some e ∧
          strLe e "2025-03-15" = true)) :=
  ⟨by decide, (C6_alerts dbTwo "2025-03-15").1 itemA (by decide)⟩

/-- C7: when Receive finds no item with the given SKU it auto-creates,
inside the same atomic unit, a minimal item with name = SKU, no category,
no unit and minimum level 0, and then upserts the lot and appends the
RECEIVE transaction against that item. -/
theorem C7_autocreate :
    ∀ (db : DB) (r : ReceiveReq) (q : Int) (db' : DB),
      receiveValid r = true →
      r.quantity = some q →
      isValidDate r.expiry_date = true →
      findItemBySku db r.sku = none →
      (∀ l ∈ db.lots, l.item_id ≠ db.nextItemId) →
      receive db r = .ok db' →
      db'.items = db.items
        ++ [⟨db.nextItemId, r.sku, r.sku, none, none, 0, true⟩] ∧
      db'.lots = db.lots
        ++ [⟨db.nextLotId, db.nextItemId, r.lot_no, r.expiry_date, q,
          r.location⟩] ∧
      db'.txns = db.txns ++ [⟨some db.nextItemId, some db.nextLotId, q,
        .RECEIVE, some ("Stock received")⟩] ∧
      db'.nextItemId = db.nextItemId + 1 ∧
      db'.nextLotId = db.nextLotId + 1 := by
  intro db r q db' hv hq hd hfi hnolot hok
  rw [receive_fresh_spec hv hq hd hfi hnolot] at hok
  simp only [Except.ok.injEq] at hok
  subst hok
  exact ⟨rfl, rfl, rfl, rfl, rfl⟩

/-- C7 witness: the first receive against the fresh store auto-creates
item A with name "A", no category, no unit and minimum level 0, and then
stores the lot and the RECEIVE transaction against it. -/
theorem C7_autocreate_witness :
    findItemBySku DB.init "A" = none ∧
    (dbOne.items = DB.init.items ++ [⟨1, "A", "A", none, none, 0, true⟩] ∧
     dbOne.lots = DB.init.lots ++ [⟨1, 1, "L1", "2025-01-01", 5, none⟩] ∧
     dbOne.txns = DB.init.txns ++ [⟨some 1, some 1, 5, .RECEIVE,
       some ("Stock received")⟩] ∧
     dbOne.nextItemId = DB.init.nextItemId + 1 ∧
     dbOne.nextLotId = DB.init.nextLotId + 1) :=
  ⟨rfl, C7_autocreate DB.init reqA1 5 dbOne rfl rfl rfl rfl (by decide) rfl⟩

/-- C8: a successful Dispatch(sku, q) touches only lots of the dispatched
item: the lots of every other item are exactly the same rows afterwards
(same quantity, expiry, location, presence), the zero-quantity sweep having
removed only lots this dispatch drained (in reachable states no other
zero-quantity lot exists for it to remove). -/
theorem C8_frame :
    ∀ (db : DB) (r : DispatchReq) (q : Int) (item : Item) (db' : DB),
      (∀ l ∈ db.lots, 0 < l.quantity) →
      (db.lots.map (fun l => l.lot_id)).Nodup →
      r.quantity = some q →
      findItemBySku db r.sku = some item →
      dispatch db r = .ok db' →
      db'.lots.filter (fun l => !(l.item_id == item.item_id))
        = db.lots.filter (fun l => !(l.item_id == item.item_id)) ∧
      (∀ l ∈ db.lots, l.item_id ≠ item.item_id → l ∈ db'.lots) ∧
      (∀ l ∈ db'.lots, l.item_id ≠ item.item_id → l ∈ db.lots) := by
  intro db r q item db' hpos hnodup hq hfi hok
  have hv : dispatchValid r = true := by
    by_contra hv
    unfold dispatch at hok
    rw [if_pos (by simpa using hv)] at hok
    exact absurd hok (by simp)
  have hframe := dispatch_frame hpos hnodup hv hq hfi hok
  refine ⟨hframe, ?_, ?_⟩
  · intro l hl hne
    have h1 : l ∈ db.lots.filter (fun l => !(l.item_id == item.item_id)) :=
      List.mem_filter.mpr ⟨hl, by simp [hne]⟩
    rw [← hframe] at h1
    exact (List.mem_filter.mp h1).1
  · intro l hl hne
    have h1 : l ∈ db'.lots.filter (fun l => !(l.item_id == item.item_id)) :=
      List.mem_filter.mpr ⟨hl, by simp [hne]⟩
    rw [hframe] at h1
    exact (List.mem_filter.mp h1).1

/-- C8 witness: from a state holding items A and B, Dispatch(A, 7) leaves
item B's lot untouched. -/
theorem C8_frame_witness :
    dispatch dbTwoB ⟨"A", some 7, none⟩ = .ok dbTwoBAfter ∧
    (dbTwoBAfter.lots.filter (fun l => !(l.item_id == 1))
        = dbTwoB.lots.filter (fun l => !(l.item_id == 1)) ∧
      (∀ l ∈ dbTwoB.lots, l.item_id ≠ 1 → l ∈ dbTwoBAfter.lots) ∧
      (∀ l ∈ dbTwoBAfter.lots, l.item_id ≠ 1 → l ∈ dbTwoB.lots)) :=
  ⟨rfl,
    C8_frame dbTwoB ⟨"A", some 7, none⟩ 7 itemA dbTwoBAfter
      (by decide) (by decide) rfl rfl rfl⟩

/-- C9: two Dispatch attempts running concurrently against the same item
see row-disjoint sets of lots (FOR UPDATE SKIP LOCKED makes a row visible
to at most one attempt — modelled as the two visible lists forming a
sub-permutation of the item's lot rows), and `fefoRemaining v q ≤ 0` is
exactly the success criterion of the FEFO walk over visible lots v (by
`dispatchLoop_spec`); then the two dispatched quantities together never
exceed the stock that was present at the start of the contention window,
so no unit is allocated twice. -/
theorem C9_concurrent_bound :
    ∀ (db : DB) (itemId : Nat) (V1 V2 : List Lot) (q1 q2 : Int),
      (∀ l ∈ db.lots, 0 ≤ l.quantity) →
      (V1 ++ V2).Subperm (db.lots.filter (fun l => l.item_id == itemId)) →
      fefoRemaining q1 V1 ≤ 0 →
      fefoRemaining q2 V2 ≤ 0 →
      q1 + q2 ≤ currentStock db itemId := by
  intro db itemId V1 V2 q1 q2 hnn hsub h1 h2
  have hmemnn : ∀ l ∈ V1 ++ V2, 0 ≤ l.quantity := by
    intro l hl
    have := hsub.subset hl
    exact hnn l (List.mem_filter.mp this).1
  have hge1 := fefoRemaining_ge V1 q1
    (fun l hl => hmemnn l (List.mem_append.mpr (Or.inl hl)))
  have hge2 := fefoRemaining_ge V2 q2
    (fun l hl => hmemnn l (List.mem_append.mpr (Or.inr hl)))
  have hsum := subperm_qty_sum_le hsub
    (fun l hl => hnn l (List.mem_filter.mp hl).1)
  rw [List.map_append, List.sum_append] at hsum
  have hcs : ((db.lots.filter (fun l => l.item_id == itemId)).map
      (fun l => l.quantity)).sum = currentStock db itemId := rfl
  rw [hcs] at hsum
  omega

/-- C9 witness: visible sets [L1] and [L2] (disjoint rows of item A's 10
units), both walks succeed for 5 units each, and 5 + 5 ≤ 10. -/
theorem C9_concurrent_bound_witness :
    fefoRemaining 5 [⟨1, 1, "L1", "2025-01-01", 5, none⟩] ≤ 0 ∧
    5 + 5 ≤ currentStock dbTwo 1 :=
  ⟨by decide,
    C9_concurrent_bound dbTwo 1 [⟨1, 1, "L1", "2025-01-01", 5, none⟩]
      [⟨2, 1, "L2", "2025-06-01", 5, none⟩] 5 5 (by decide)
      (List.Subperm.refl _) (by decide) (by decide)⟩

/-- C10: in every reachable state every item's is_active flag is true (no
operation ever clears it), and none of the four read queries filters on the
flag: flipping every item inactive changes no row of Alerts, Stats or
RecentTransactions, and changes ListItems rows only in the reported
is_active field itself. -/
theorem C10_active_flag :
    (∀ db : DB, Reachable db → ∀ i ∈ db.items, i.is_active = true) ∧
    (∀ (db : DB) (s : Option String) (cutoff : String) (lim : Nat),
      listItems (setInactive db) s
        = (listItems db s).map (fun r => { r with is_active := false }) ∧
      alerts (setInactive db) cutoff = alerts db cutoff ∧
      stats (setInactive db) cutoff = stats db cutoff ∧
      recentTx (setInactive db) lim = recentTx db lim) :=
  ⟨fun _ h => (Reachable_inv h).items_active,
    fun db s cutoff lim =>
      ⟨listItems_setInactive db s, alerts_setInactive db cutoff,
        stats_setInactive db cutoff, recentTx_setInactive db lim⟩⟩

/-- C10 witness: the reachable two-lot state has only active items, and
the read queries on it ignore the flag. -/
theorem C10_active_flag_witness :
    (∀ i ∈ dbTwo.items, i.is_active = true) ∧
    (listItems (setInactive dbTwo) none
        = (listItems dbTwo none).map (fun r => { r with is_active := false }) ∧
      alerts (setInactive dbTwo) "2025-03-15" = alerts dbTwo "2025-03-15" ∧
      stats (setInactive dbTwo) "2025-03-15" = stats dbTwo "2025-03-15" ∧
      recentTx (setInactive dbTwo) 10 = recentTx dbTwo 10) := by
  have hreach : Reachable dbTwo :=
    Reachable.recv dbOne reqA2 dbTwo
      (Reachable.recv DB.init reqA1 dbOne Reachable.init rfl) rfl
  exact ⟨C10_active_flag.1 dbTwo hreach,
    C10_active_flag.2 dbTwo none "2025-03-15" 10⟩

end MedIMS